import Mathlib

/-!
Verification development for the `juniper_codegen` GraphQL-interface code
generator (`src/juniper_codegen/src/graphql_interface/mod.rs`).

The Rust code is a procedural-macro emitter: it parses and merges attribute
metadata, builds a validated `Definition`, and emits token streams for two
backend representations (tagged-union enum, or dynamic-dispatch trait
object).  We shallowly embed it here:

* `syn` identifiers, types and expression paths are modelled by their
  rendered token text (`String`);
* `SpanContainer` carries no information relevant to observable behaviour
  (spans only locate diagnostics), so it is modelled by the identity;
* emitted `TokenStream`s are modelled by structured data mirroring exactly
  the shape of the `quote!` templates in the source, together with small
  evaluation functions giving the runtime semantics of the emitted match
  arms and `if`-chains;
* fallible Rust code (`syn::Result`) becomes `Except MacroError`.
-/

namespace Juniper

/-- Model of `syn::Type`: a Rust type, identified by its rendered token
text (the source compares and sorts types via `quote!(#t).to_string()`). -/
abbrev Ty := String

/-- Model of `syn::Ident`: an identifier, by its text. -/
abbrev Ident := String

/-- Model of `syn::ExprPath`: a path expression, by its rendered text. -/
abbrev ExprPath := String

/-- Model of `SpanContainer<T>`: spans only matter for diagnostics
locations, which no claim observes, so the container is the identity. -/
abbrev SpanContainer (α : Type) := α

/-- Modelled from the spec: `common::ScalarValueType` (its source file is
not part of the repository snapshot).  The spec describes the value-domain
(scalar) type as either a concrete type or left generic; the generated
code is then generic over any `juniper::ScalarValue` type. -/
inductive ScalarValueType : Type where
  | concrete (ty : Ty)
  | explicitGeneric (ident : Ident)
  | implicitGeneric
deriving DecidableEq, Repr

/-- Modelled from the spec: `ScalarValueType::is_generic` holds unless a
concrete scalar type was specified. -/
def ScalarValueType.is_generic : ScalarValueType → Bool
  | .concrete _ => false
  | .explicitGeneric _ => true
  | .implicitGeneric => true

/-- Modelled from the spec: `ScalarValueType::ty_tokens_default` renders
the scalar type to substitute into the emitted code (the concrete type, the
explicit generic parameter, or the default generic parameter). -/
def ScalarValueType.ty_tokens_default : ScalarValueType → String
  | .concrete ty => ty
  | .explicitGeneric i => i
  | .implicitGeneric => "__S"

/-- Model of the `syn::Error` values produced by the macro code: either the
generic duplicate-argument error (`err::dup_arg`), the unknown-argument
error (`err::unknown_arg`), or an error with an explicit message
(`syn::Error::new(span, msg)`). -/
inductive MacroError : Type where
  | dupArg
  | unknownArg (name : String)
  | errorMsg (msg : String)
deriving DecidableEq, Repr

/-- `true` exactly on `Except.error`. -/
def isErr {ε α : Type} : Except ε α → Bool
  | .error _ => true
  | .ok _ => false

/-- Modelled from the spec: the `try_merge_opt!` macro (defined in the
excluded generic merger utilities).  Parsing a key twice across sites is an
error exactly when both occurrences set the same option; otherwise the set
occurrence (if any) is kept. -/
def try_merge_opt {α : Type} : Option α → Option α → Except MacroError (Option α)
  | some _, some _ => .error .dupArg
  | some v, none => .ok (some v)
  | none, x => .ok x

/-- Modelled from the spec: the element-insertion loop underlying
`try_merge_hashset!` and the `HashSet::replace` calls of the parser:
inserting an element already present reports a duplicate-argument error
(set semantics, never silent deduplication). -/
def hashset_insert_all {α : Type} [DecidableEq α] (acc : List α) :
    List α → Except MacroError (List α)
  | [] => .ok acc
  | t :: ts =>
    if t ∈ acc then .error .dupArg else hashset_insert_all (acc ++ [t]) ts

/-- Modelled from the spec: `try_merge_hashset!` folds the second set's
elements into the first, reporting a duplicate for any element already
present. -/
def try_merge_hashset {α : Type} [DecidableEq α]
    (s a : List α) : Except MacroError (List α) :=
  hashset_insert_all s a

/-- Modelled from the spec: the key-insertion loop underlying
`try_merge_hashmap!` and `HashMap::insert(..).none_or_else(dup_arg)`:
inserting an entry whose key is already present is a duplicate error. -/
def hashmap_insert_all {κ ν : Type} [DecidableEq κ] (acc : List (κ × ν)) :
    List (κ × ν) → Except MacroError (List (κ × ν))
  | [] => .ok acc
  | kv :: rest =>
    if acc.any (fun e => e.1 = kv.1) then .error .dupArg
    else hashmap_insert_all (acc ++ [kv]) rest

/-- Modelled from the spec: `try_merge_hashmap!` folds the second map's
entries into the first, reporting a duplicate for any key already
present. -/
def try_merge_hashmap {κ ν : Type} [DecidableEq κ]
    (s a : List (κ × ν)) : Except MacroError (List (κ × ν)) :=
  hashmap_insert_all s a

/-- Model of `InterfaceMeta`: merged `#[graphql_interface]` options placed
on a trait definition.  `implementers` models the `HashSet` as a
duplicate-free list and `external_downcasts` models the `HashMap` as a
key-unique association list. -/
structure InterfaceMeta : Type where
  name : Option (SpanContainer String) := none
  description : Option (SpanContainer String) := none
  as_enum : Option (SpanContainer Ident) := none
  as_dyn : Option (SpanContainer Ident) := none
  implementers : List (SpanContainer Ty) := []
  context : Option (SpanContainer Ty) := none
  scalar : Option (SpanContainer Ty) := none
  asyncness : Option (SpanContainer Ident) := none
  external_downcasts : List (Ty × SpanContainer ExprPath) := []
  is_internal : Bool := false
deriving DecidableEq, Repr

instance : Inhabited InterfaceMeta := ⟨{}⟩

/-- Model of `InterfaceMeta::default()`. -/
def InterfaceMeta.default : InterfaceMeta := {}

/-- Model of `InterfaceMeta::try_merge`: merges two `InterfaceMeta`s,
reporting about duplicates, if any (field by field, in source order). -/
def InterfaceMeta.try_merge (s another : InterfaceMeta) :
    Except MacroError InterfaceMeta := do
  let name ← try_merge_opt s.name another.name
  let description ← try_merge_opt s.description another.description
  let context ← try_merge_opt s.context another.context
  let scalar ← try_merge_opt s.scalar another.scalar
  let implementers ← try_merge_hashset s.implementers another.implementers
  let as_dyn ← try_merge_opt s.as_dyn another.as_dyn
  let as_enum ← try_merge_opt s.as_enum another.as_enum
  let asyncness ← try_merge_opt s.asyncness another.asyncness
  let external_downcasts ←
    try_merge_hashmap s.external_downcasts another.external_downcasts
  pure {
    name := name
    description := description
    context := context
    scalar := scalar
    implementers := implementers
    as_dyn := as_dyn
    as_enum := as_enum
    asyncness := asyncness
    external_downcasts := external_downcasts
    is_internal := s.is_internal || another.is_internal
  }

/-- Model of the fold inside `InterfaceMeta::from_attrs`:
`filter_attrs(..).map(parse_args).try_fold(Self::default(), try_merge)`,
taking the already-parsed per-site records as input. -/
def InterfaceMeta.merge_all (sites : List InterfaceMeta) :
    Except MacroError InterfaceMeta :=
  sites.foldlM (fun prev curr => prev.try_merge curr) InterfaceMeta.default

/-- The exact message of the `dyn`/`enum` composability error in
`InterfaceMeta::from_attrs`. -/
def dyn_enum_not_composable_msg : String :=
  "`dyn` attribute argument is not composable with `enum` attribute argument"

/-- Model of `InterfaceMeta::from_attrs`: fold-merge all annotation sites,
then reject the combination of the `dyn` and `enum` aliases, then default
the description from the doc comment (`get_doc_comment` is external, so the
extracted doc comment is a parameter). -/
def InterfaceMeta.from_attrs (sites : List InterfaceMeta)
    (doc_comment : Option String) : Except MacroError InterfaceMeta :=
  match InterfaceMeta.merge_all sites with
  | .error e => .error e
  | .ok meta =>
    if meta.as_dyn.isSome ∧ meta.as_enum.isSome then
      .error (.errorMsg dyn_enum_not_composable_msg)
    else
      .ok { meta with
            description :=
              if meta.description.isNone then doc_comment
              else meta.description }

/-- Model of the `"for" | "implementers"` arm of `InterfaceMeta`'s `Parse`
implementation: each parsed implementer type is inserted into the
`implementers` hash set via `replace(..).none_or_else(dup_arg)`, so listing
a type already present (from this or an earlier option occurrence) is a
duplicate-argument error. -/
def InterfaceMeta.parse_implementers_arm (output : InterfaceMeta)
    (parsed : List Ty) : Except MacroError InterfaceMeta :=
  (hashset_insert_all output.implementers parsed).map
    (fun l => { output with implementers := l })

/-- Model of the `"on"` arm of `InterfaceMeta`'s `Parse` implementation:
the parsed external-downcast entry is inserted into the
`external_downcasts` hash map via `insert(..).none_or_else(dup_arg)`, so a
key already present (from an earlier `on` occurrence at the same site) is
a duplicate-argument error. -/
def InterfaceMeta.parse_on_arm (output : InterfaceMeta) (ty : Ty)
    (dwncst : ExprPath) : Except MacroError InterfaceMeta :=
  if output.external_downcasts.any (fun e => e.1 = ty) then .error .dupArg
  else .ok { output with
             external_downcasts := output.external_downcasts ++ [(ty, dwncst)] }

/-- Model of `TraitMethodMeta`: merged `#[graphql]` options on one trait
method.  `deprecated` is an option of an optional reason, `ignore` and
`downcast` are flags (the stored `Ident` is their keyword token). -/
structure TraitMethodMeta : Type where
  name : Option (SpanContainer String) := none
  description : Option (SpanContainer String) := none
  deprecated : Option (SpanContainer (Option String)) := none
  ignore : Option (SpanContainer Ident) := none
  downcast : Option (SpanContainer Ident) := none
deriving DecidableEq, Repr

instance : Inhabited TraitMethodMeta := ⟨{}⟩

/-- Model of `TraitMethodMeta::try_merge` (field by field, source order). -/
def TraitMethodMeta.try_merge (s another : TraitMethodMeta) :
    Except MacroError TraitMethodMeta := do
  let name ← try_merge_opt s.name another.name
  let description ← try_merge_opt s.description another.description
  let deprecated ← try_merge_opt s.deprecated another.deprecated
  let ignore ← try_merge_opt s.ignore another.ignore
  let downcast ← try_merge_opt s.downcast another.downcast
  pure {
    name := name
    description := description
    deprecated := deprecated
    ignore := ignore
    downcast := downcast
  }

/-- Model of the fold inside `TraitMethodMeta::from_attrs`. -/
def TraitMethodMeta.merge_all (sites : List TraitMethodMeta) :
    Except MacroError TraitMethodMeta :=
  sites.foldlM (fun prev curr => prev.try_merge curr) {}

/-- The exact `ignore`-composability error message of
`TraitMethodMeta::from_attrs`. -/
def ignore_not_composable_msg : String :=
  "`ignore` attribute argument is not composable with any other arguments"

/-- The exact `downcast`-composability error message of
`TraitMethodMeta::from_attrs`. -/
def downcast_not_composable_msg : String :=
  "`downcast` attribute argument is not composable with any other arguments"

/-- Model of `TraitMethodMeta::from_attrs`: fold-merge all sites, reject
`ignore` (and then `downcast`) combined with any other option, then default
the description and deprecation from the doc attributes (the externally
extracted values are parameters). -/
def TraitMethodMeta.from_attrs (sites : List TraitMethodMeta)
    (doc_comment : Option String) (deprecation : Option (Option String)) :
    Except MacroError TraitMethodMeta :=
  match TraitMethodMeta.merge_all sites with
  | .error e => .error e
  | .ok meta =>
    if meta.ignore.isSome ∧
        (meta.name.isSome ∨ meta.description.isSome ∨
         meta.deprecated.isSome ∨ meta.downcast.isSome) then
      .error (.errorMsg ignore_not_composable_msg)
    else if meta.downcast.isSome ∧
        (meta.name.isSome ∨ meta.description.isSome ∨
         meta.deprecated.isSome ∨ meta.ignore.isSome) then
      .error (.errorMsg downcast_not_composable_msg)
    else
      .ok { meta with
            description :=
              if meta.description.isNone then doc_comment
              else meta.description,
            deprecated :=
              if meta.deprecated.isNone then deprecation
              else meta.deprecated }

/-- Model of `ArgumentMeta`: merged `#[graphql]` options on one method
argument.  `default` is an option of an optional default expression
(rendered), `context` and `executor` are flags. -/
structure ArgumentMeta : Type where
  name : Option (SpanContainer String) := none
  description : Option (SpanContainer String) := none
  default : Option (SpanContainer (Option String)) := none
  context : Option (SpanContainer Ident) := none
  executor : Option (SpanContainer Ident) := none
deriving DecidableEq, Repr

instance : Inhabited ArgumentMeta := ⟨{}⟩

/-- Model of `ArgumentMeta::try_merge` (field by field, source order). -/
def ArgumentMeta.try_merge (s another : ArgumentMeta) :
    Except MacroError ArgumentMeta := do
  let name ← try_merge_opt s.name another.name
  let description ← try_merge_opt s.description another.description
  let dflt ← try_merge_opt s.default another.default
  let context ← try_merge_opt s.context another.context
  let executor ← try_merge_opt s.executor another.executor
  pure {
    name := name
    description := description
    default := dflt
    context := context
    executor := executor
  }

/-- Model of the fold inside `ArgumentMeta::from_attrs`. -/
def ArgumentMeta.merge_all (sites : List ArgumentMeta) :
    Except MacroError ArgumentMeta :=
  sites.foldlM (fun prev curr => prev.try_merge curr) {}

/-- The exact `context`-composability error message of
`ArgumentMeta::from_attrs`. -/
def context_not_composable_msg : String :=
  "`context` attribute argument is not composable with any other arguments"

/-- The exact `executor`-composability error message of
`ArgumentMeta::from_attrs`. -/
def executor_not_composable_msg : String :=
  "`executor` attribute argument is not composable with any other arguments"

/-- Model of `ArgumentMeta::from_attrs`: fold-merge all sites, then reject
`context` (and then `executor`) combined with any other option. -/
def ArgumentMeta.from_attrs (sites : List ArgumentMeta) :
    Except MacroError ArgumentMeta :=
  match ArgumentMeta.merge_all sites with
  | .error e => .error e
  | .ok meta =>
    if meta.context.isSome ∧
        (meta.name.isSome ∨ meta.description.isSome ∨
         meta.default.isSome ∨ meta.executor.isSome) then
      .error (.errorMsg context_not_composable_msg)
    else if meta.executor.isSome ∧
        (meta.name.isSome ∨ meta.description.isSome ∨
         meta.default.isSome ∨ meta.context.isSome) then
      .error (.errorMsg executor_not_composable_msg)
    else
      .ok meta

/-- Model of `InterfaceFieldArgumentDefinition`: one regular GraphQL field
argument; the default expression, when explicitly given, is rendered. -/
structure InterfaceFieldArgumentDefinition : Type where
  name : String
  ty : Ty
  description : Option String
  default : Option (Option String)
deriving DecidableEq, Repr

/-- Model of `MethodArgument`: classification of one trait-method
parameter. -/
inductive MethodArgument : Type where
  | Regular (arg : InterfaceFieldArgumentDefinition)
  | Context (ty : Ty)
  | Executor
deriving DecidableEq, Repr

/-- Model of `MethodArgument::as_regular`. -/
def MethodArgument.as_regular : MethodArgument → Option InterfaceFieldArgumentDefinition
  | .Regular arg => some arg
  | _ => none

/-- Model of the argument expression emitted by
`MethodArgument::resolve_field_method_tokens`: `args.get::<ty>(name)` with
its internal-error text for a regular argument, `FromContext::from
(executor.context())` for a context argument, `&executor` for an executor
argument. -/
inductive ResolveArgTok : Type where
  | argsGet (name : String) (ty : Ty) (err_text : String)
  | fromContext
  | executorRef
deriving DecidableEq, Repr

/-- Model of `MethodArgument::resolve_field_method_tokens`. -/
def MethodArgument.resolve_field_method_tokens : MethodArgument → ResolveArgTok
  | .Regular arg =>
    .argsGet arg.name arg.ty
      ("Internal error: missing argument `" ++ arg.name ++
       "` - validation must have failed")
  | .Context _ => .fromContext
  | .Executor => .executorRef

/-- Model of the default-value token of an argument-metadata registration:
an explicit expression converted via `.into()`, or
`<ty as Default>::default()`. -/
inductive ArgDefaultTok : Type where
  | explicitVal (v : String)
  | derivedDefault (ty : Ty)
deriving DecidableEq, Repr

/-- Model of one `.argument(registry…)` registration emitted by
`MethodArgument::meta_method_tokens`. -/
structure ArgMetaTok : Type where
  name : String
  ty : Ty
  dflt : Option ArgDefaultTok
  description : Option String
deriving DecidableEq, Repr

/-- Model of `MethodArgument::meta_method_tokens` (only regular arguments
register metadata). -/
def MethodArgument.meta_method_tokens (a : MethodArgument) : Option ArgMetaTok :=
  a.as_regular.map fun arg =>
    { name := arg.name
      ty := arg.ty
      dflt := arg.default.map fun v =>
        match v with
        | some e => .explicitVal e
        | none => .derivedDefault arg.ty
      description := arg.description }

/-- Model of `InterfaceFieldDefinition`: one schema field derived from a
trait method.  The struct field is declared `trait_ty` in the source (its
emission methods read it under the name `interface_ty`). -/
structure InterfaceFieldDefinition : Type where
  name : String
  ty : Ty
  trait_ty : Ty
  description : Option String
  deprecated : Option (Option String)
  method : Ident
  arguments : List MethodArgument
  is_async : Bool
deriving DecidableEq, Repr

/-- Model of one `registry.field_convert(..)` registration emitted by
`InterfaceFieldDefinition::meta_method_tokens`. -/
structure FieldMetaTok : Type where
  name : String
  ty : Ty
  arguments : List ArgMetaTok
  description : Option String
  deprecated : Option (Option String)
deriving DecidableEq, Repr

/-- Model of `InterfaceFieldDefinition::meta_method_tokens`. -/
def InterfaceFieldDefinition.meta_method_tokens
    (f : InterfaceFieldDefinition) : FieldMetaTok :=
  { name := f.name
    ty := f.ty
    arguments := f.arguments.filterMap MethodArgument.meta_method_tokens
    description := f.description
    deprecated := f.deprecated }

/-- Modelled from the spec: markers for `gen::sync_resolving_code()` and
`gen::async_resolving_code(ty)` (the `common::gen` module is not part of
the repository snapshot) — the emitted epilogue turning a resolved value,
respectively a future of one, into an `ExecutionResult`. -/
inductive ResolvingCode : Type where
  | syncCode
  | asyncCode (ty : Option Ty)
deriving DecidableEq, Repr

/-- The `panic!` format string of `Definition::no_field_panic_tokens`. -/
def no_field_panic_fmt : String := "Field `\x7b\x7d` not found on type `\x7b\x7d`"

/-- The `panic!` format string of the async-field arm inside
`Definition::impl_graphql_value_tokens`. -/
def async_field_panic_fmt : String :=
  "Tried to resolve async field `\x7b\x7d` on type `\x7b\x7d` with a sync resolver"

/-- Model of a `panic!` argument token: the `field` binding, or
`<Self as GraphQLType<..>>::name(info).unwrap()`. -/
inductive PanicArgTok : Type where
  | fieldVar
  | selfTypeName
deriving DecidableEq, Repr

/-- Model of the emitted expression
`<Self as #interface_ty>::#method(self, #args…)`. -/
structure MethodCallExpr : Type where
  interface_ty : Ty
  method : Ident
  args : List ResolveArgTok
deriving DecidableEq, Repr

/-- Model of the action of one arm of the emitted synchronous
`resolve_field` match: run a method and feed the result through the sync
resolving code, or panic with a format string and its arguments. -/
inductive SyncArmAction : Type where
  | resolveCall (res_ty : Ty) (call : MethodCallExpr) (resolving : ResolvingCode)
  | doPanic (fmt : String) (args : List PanicArgTok)
deriving DecidableEq, Repr

/-- Model of one arm of the emitted `resolve_field` match: its field-name
patterns (or-patterns for the async-panic arm) and its action. -/
structure MatchArm : Type where
  pats : List String
  action : SyncArmAction
deriving DecidableEq, Repr

/-- Model of `InterfaceFieldDefinition::resolve_field_method_tokens`:
a sync match arm for a non-async field, `None` for an async field. -/
def InterfaceFieldDefinition.resolve_field_method_tokens
    (f : InterfaceFieldDefinition) : Option MatchArm :=
  if f.is_async then none
  else some
    { pats := [f.name]
      action := .resolveCall f.ty
        ⟨f.trait_ty, f.method,
         f.arguments.map MethodArgument.resolve_field_method_tokens⟩
        .syncCode }

/-- Model of the future expression bound to `fut` in an async arm: the
method call itself when the method is async, or the call wrapped in
`::juniper::futures::future::ready(..)` when it is not. -/
inductive FutExpr : Type where
  | futureOfCall (call : MethodCallExpr)
  | ready (call : MethodCallExpr)
deriving DecidableEq, Repr

/-- Model of one arm of the emitted `resolve_field_async` match. -/
structure AsyncMatchArm : Type where
  pats : List String
  fut : FutExpr
  resolving : ResolvingCode
deriving DecidableEq, Repr

/-- Model of `InterfaceFieldDefinition::resolve_field_async_method_tokens`:
always an arm binding a `fut` and feeding it through the async resolving
code; a non-async method's call is wrapped in `future::ready`. -/
def InterfaceFieldDefinition.resolve_field_async_method_tokens
    (f : InterfaceFieldDefinition) : AsyncMatchArm :=
  let call : MethodCallExpr :=
    ⟨f.trait_ty, f.method,
     f.arguments.map MethodArgument.resolve_field_method_tokens⟩
  { pats := [f.name]
    fut := if f.is_async then .futureOfCall call else .ready call
    resolving := .asyncCode (some f.ty) }

/-- Model of `ImplementerDowncastDefinition`. -/
inductive ImplementerDowncastDefinition : Type where
  | Method (name : Ident) (with_context : Bool)
  | External (path : ExprPath)
deriving DecidableEq, Repr

/-- Model of `ImplementerDefinition`: one concrete implementer type of the
interface. -/
structure ImplementerDefinition : Type where
  ty : Ty
  downcast : Option ImplementerDowncastDefinition
  context_ty : Option Ty
  scalar : ScalarValueType
  interface_ty : Ty
deriving DecidableEq, Repr

/-- Model of the callee of a downcast call: a trait method
`#interface_ty::#name`, or an external function path. -/
inductive DowncastFn : Type where
  | methodCall (interface_ty : Ty) (name : Ident)
  | externalPath (path : ExprPath)
deriving DecidableEq, Repr

/-- Model of the emitted downcast call `#fn_path(self #ctx_arg)`:
`ctx_arg` records whether the context argument is passed. -/
structure DowncastCall : Type where
  fn : DowncastFn
  ctx_arg : Bool
deriving DecidableEq, Repr

/-- Model of `ImplementerDefinition::downcast_call_tokens`: a method
downcast passes the context argument iff `with_context`; an external
downcast always passes it. -/
def ImplementerDefinition.downcast_call_tokens
    (im : ImplementerDefinition) : Option DowncastCall :=
  im.downcast.map fun d =>
    match d with
    | .Method name with_context =>
      { fn := .methodCall im.interface_ty name, ctx_arg := with_context }
    | .External path => { fn := .externalPath path, ctx_arg := true }

/-- Model of one custom implementer check emitted into
`resolve_into_type` / `resolve_into_type_async`:
`if type_name == <ty as GraphQLType<..>>::name(info) { …return }`. -/
structure CustomDowncastCheck : Type where
  ty : Ty
  scalar_ty : String
  call : DowncastCall
  resolving : ResolvingCode
  fut_ready : Bool
deriving DecidableEq, Repr

/-- Model of `ImplementerDefinition::resolve_into_type_method_tokens`:
`None` when the implementer has no downcast strategy. -/
def ImplementerDefinition.resolve_into_type_method_tokens
    (im : ImplementerDefinition) : Option CustomDowncastCheck :=
  if im.downcast.isNone then none
  else im.downcast_call_tokens.map fun c =>
    { ty := im.ty
      scalar_ty := im.scalar.ty_tokens_default
      call := c
      resolving := .syncCode
      fut_ready := false }

/-- Model of `ImplementerDefinition::resolve_into_type_async_method_tokens`:
the downcast result is wrapped in `future::ready` and fed through the
async resolving code. -/
def ImplementerDefinition.resolve_into_type_async_method_tokens
    (im : ImplementerDefinition) : Option CustomDowncastCheck :=
  if im.downcast.isNone then none
  else im.downcast_call_tokens.map fun c =>
    { ty := im.ty
      scalar_ty := im.scalar.ty_tokens_default
      call := c
      resolving := .asyncCode none
      fut_ready := true }

/-- Model of one custom implementer check emitted into
`concrete_type_name`: `if (#downcast as Option<&ty>).is_some() { return
name(ty) }`. -/
structure ConcreteNameCheck : Type where
  ty : Ty
  scalar_ty : String
  call : DowncastCall
deriving DecidableEq, Repr

/-- Model of `ImplementerDefinition::concrete_type_name_method_tokens`. -/
def ImplementerDefinition.concrete_type_name_method_tokens
    (im : ImplementerDefinition) : Option ConcreteNameCheck :=
  if im.downcast.isNone then none
  else im.downcast_call_tokens.map fun c =>
    { ty := im.ty, scalar_ty := im.scalar.ty_tokens_default, call := c }

/-- Model of a `where`-clause predicate of an emitted `impl`: the
`Self: Sync` bound, the `#scalar_ty: Send + Sync` bound, the
`#scalar_ty: ::juniper::ScalarValue` bound, or a user-written predicate
carried over from the trait generics. -/
inductive Pred : Type where
  | selfSync
  | scalarSendSync
  | scalarValueBound (scalar_ty : String)
  | user (tok : String)
deriving DecidableEq, Repr

/-- Model of `syn::Generics`: parameters and `where`-clause predicates. -/
structure Generics : Type where
  params : List String := []
  where_preds : List Pred := []
deriving DecidableEq, Repr

/-- Model of `syn::Signature` (what the emitter inspects: name, non-receiver
argument patterns, asyncness). -/
structure Sig : Type where
  ident : Ident
  args : List String := []
  asyncness : Bool := false
deriving DecidableEq, Repr

/-- Model of `syn::TraitItem` (the three kinds the emitter consumes). -/
inductive TraitItem : Type where
  | typeItem (ident : Ident) (generics : Generics)
  | constItem (ident : Ident) (ty : Ty)
  | methodItem (sig : Sig)
deriving DecidableEq, Repr

/-- Model of `syn::ItemTrait` (what `EnumType::new` and
`TraitObjectType::new` consume). -/
structure ItemTrait : Type where
  ident : Ident
  vis : String := ""
  generics : Generics := {}
  items : List TraitItem := []
deriving DecidableEq, Repr

/-- Model of `EnumType`: the tagged-union backend representation. -/
structure EnumType : Type where
  ident : Ident
  visibility : String
  variants : List Ty
  trait_ident : Ident
  trait_generics : Generics
  trait_types : List (Ident × Generics)
  trait_consts : List (Ident × Ty)
  trait_methods : List Sig
deriving DecidableEq, Repr

/-- Model of `EnumType::new`: the synthesized name is the `enum` alias or
`{trait}Value`; variants are the implementer types in list order; the
associated types/consts/methods mirror the trait items. -/
def EnumType.new (tr : ItemTrait) (meta : InterfaceMeta)
    (implers : List ImplementerDefinition) : EnumType :=
  { ident := meta.as_enum.getD (tr.ident ++ "Value")
    visibility := tr.vis
    variants := implers.map (fun impler => impler.ty)
    trait_ident := tr.ident
    trait_generics := tr.generics
    trait_types := tr.items.filterMap fun i =>
      match i with
      | .typeItem id g => some (id, g)
      | _ => none
    trait_consts := tr.items.filterMap fun i =>
      match i with
      | .constItem id t => some (id, t)
      | _ => none
    trait_methods := tr.items.filterMap fun i =>
      match i with
      | .methodItem s => some s
      | _ => none }

/-- Model of `EnumType::variant_ident`: `Impl{n}`. -/
def EnumType.variant_ident (num : Nat) : Ident := "Impl" ++ toString num

/-- Model of the `enum` declaration emitted by
`EnumType::type_definition_tokens`. -/
structure EnumDefTokens : Type where
  ident : Ident
  visibility : String
  variants : List (Ident × Ty)
deriving DecidableEq, Repr

/-- Model of `EnumType::type_definition_tokens`: one variant
`Impl{n}(ty)` per implementer type, in enumeration order. -/
def EnumType.type_definition_tokens (e : EnumType) : EnumDefTokens :=
  { ident := e.ident
    visibility := e.visibility
    variants := e.variants.enum.map fun p => (EnumType.variant_ident p.1, p.2) }

/-- Model of one `impl From<ty> for enum_ty` emitted by
`EnumType::impl_from_tokens`. -/
structure FromImplTok : Type where
  from_ty : Ty
  enum_ty : Ident
  variant : Ident
deriving DecidableEq, Repr

/-- Model of `EnumType::impl_from_tokens`. -/
def EnumType.impl_from_tokens (e : EnumType) : List FromImplTok :=
  e.variants.enum.map fun p => ⟨p.2, e.ident, EnumType.variant_ident p.1⟩

/-- Model of one forwarded associated type
`type #ty#gen = <#var_ty as #trait>::#ty#gen;`. -/
structure AssocTypeTok : Type where
  ident : Ident
  generics : Generics
  from_ty : Ty
deriving DecidableEq, Repr

/-- Model of one forwarded associated constant
`const #ident: #ty = <#var_ty as #trait>::#ident;`. -/
structure AssocConstTok : Type where
  ident : Ident
  ty : Ty
  from_ty : Ty
deriving DecidableEq, Repr

/-- Model of one `Self::Impl{n}(v) => <ty as Trait>::method(v, …)#and_await`
dispatch arm. -/
structure MethodDispatchArm : Type where
  variant : Ident
  ty : Ty
  and_await : Bool
deriving DecidableEq, Repr

/-- Model of one re-dispatched trait method of the tagged union. -/
structure MethodDispatchTok : Type where
  sig : Sig
  arms : List MethodDispatchArm
deriving DecidableEq, Repr

/-- Model of the `impl Trait for enum` block emitted by
`EnumType::impl_trait_tokens`. -/
structure TraitImplTokens : Type where
  enum_ty : Ident
  assoc_types : List AssocTypeTok
  assoc_consts : List AssocConstTok
  methods : List MethodDispatchTok
deriving DecidableEq, Repr

/-- Model of `EnumType::impl_trait_tokens`: associated types and constants
are forwarded from the first variant's type (`variants.first().unwrap()`,
modelled as `Option` on the empty list); each method is re-dispatched over
all variants, awaiting the forwarded call iff the method is async. -/
def EnumType.impl_trait_tokens (e : EnumType) : Option TraitImplTokens :=
  e.variants.head?.map fun var_ty =>
    { enum_ty := e.ident
      assoc_types := e.trait_types.map fun p => ⟨p.1, p.2, var_ty⟩
      assoc_consts := e.trait_consts.map fun p => ⟨p.1, p.2, var_ty⟩
      methods := e.trait_methods.map fun sig =>
        ⟨sig, e.variants.enum.map fun q =>
          ⟨EnumType.variant_ident q.1, q.2, sig.asyncness⟩⟩ }

/-- Model of `EnumType::impl_generics`: fresh generics; when the scalar is
generic, a `#scalar_ty` parameter bounded by `::juniper::ScalarValue`. -/
def EnumType.impl_generics (e : EnumType) (scalar : ScalarValueType) : Generics :=
  if scalar.is_generic then
    { params := [scalar.ty_tokens_default]
      where_preds := [.scalarValueBound scalar.ty_tokens_default] }
  else {}

/-- Model of `EnumType::ty_tokens`. -/
def EnumType.ty_tokens (e : EnumType) : String := e.ident

/-- Model of the backend's structural `concrete_type_name` code: the
tagged union matches on its variants, the trait object forwards to the
dynamic handle. -/
inductive StructuralNameTok : Type where
  | enumMatchNames (arms : List Ident)
  | dynForwardName
deriving DecidableEq, Repr

/-- Model of `EnumType::concrete_type_name_method_tokens`. -/
def EnumType.concrete_type_name_method_tokens (e : EnumType) : StructuralNameTok :=
  .enumMatchNames (e.variants.enum.map fun p => EnumType.variant_ident p.1)

/-- Model of the backend's structural `resolve_into_type` code: the tagged
union matches on its variants (wrapping each in `future::ready` in the
async variant), the trait object forwards to the dynamic handle. -/
inductive StructuralNarrowTok : Type where
  | enumMatch (arms : List Ident) (ready_wrapped : Bool) (resolving : ResolvingCode)
  | dynForward (ready_wrapped : Bool) (resolving : ResolvingCode)
deriving DecidableEq, Repr

/-- Model of `EnumType::resolve_into_type_method_tokens`. -/
def EnumType.resolve_into_type_method_tokens (e : EnumType) : StructuralNarrowTok :=
  .enumMatch (e.variants.enum.map fun p => EnumType.variant_ident p.1)
    false .syncCode

/-- Model of `EnumType::to_resolve_into_type_async_method_tokens`. -/
def EnumType.to_resolve_into_type_async_method_tokens
    (e : EnumType) : StructuralNarrowTok :=
  .enumMatch (e.variants.enum.map fun p => EnumType.variant_ident p.1)
    true (.asyncCode none)

/-- Model of `TraitObjectType`: the dynamic-dispatch backend
representation. -/
structure TraitObjectType : Type where
  ident : Ident
  visibility : String
  trait_ident : Ident
  trait_generics : Generics
  context : Option Ty
deriving DecidableEq, Repr

/-- Model of `TraitObjectType::new` (`meta.as_dyn.unwrap()` is modelled as
`Option`). -/
def TraitObjectType.new (tr : ItemTrait) (meta : InterfaceMeta)
    (context : Option Ty) : Option TraitObjectType :=
  meta.as_dyn.map fun id =>
    { ident := id
      visibility := tr.vis
      trait_ident := tr.ident
      trait_generics := tr.generics
      context := context }

/-- Model of `TraitObjectType::impl_generics`: the trait generics plus the
object lifetime parameter; when the scalar is generic, a
`::juniper::ScalarValue` bound on it. -/
def TraitObjectType.impl_generics (o : TraitObjectType)
    (scalar : ScalarValueType) : Generics :=
  { params := o.trait_generics.params ++ ["lifetime __obj"]
    where_preds := o.trait_generics.where_preds ++
      (if scalar.is_generic then [.scalarValueBound scalar.ty_tokens_default]
       else []) }

/-- Model of `TraitObjectType::ty_tokens` (rendered dynamic handle type). -/
def TraitObjectType.ty_tokens (o : TraitObjectType) : String :=
  "dyn " ++ o.trait_ident

/-- Model of `TraitObjectType::concrete_type_name_method_tokens`. -/
def TraitObjectType.concrete_type_name_method_tokens
    (_ : TraitObjectType) : StructuralNameTok :=
  .dynForwardName

/-- Model of `TraitObjectType::resolve_into_type_method_tokens`. -/
def TraitObjectType.resolve_into_type_method_tokens
    (_ : TraitObjectType) : StructuralNarrowTok :=
  .dynForward false .syncCode

/-- Model of `TraitObjectType::to_resolve_into_type_async_method_tokens`. -/
def TraitObjectType.to_resolve_into_type_async_method_tokens
    (_ : TraitObjectType) : StructuralNarrowTok :=
  .dynForward true (.asyncCode none)

/-- Model of the source enum `Type`: the chosen backend representation. -/
inductive BackendType : Type where
  | Enum (e : EnumType)
  | TraitObject (o : TraitObjectType)
deriving DecidableEq, Repr

/-- Model of `Type::is_trait_object`. -/
def BackendType.is_trait_object : BackendType → Bool
  | .Enum _ => false
  | .TraitObject _ => true

/-- Model of `Type::impl_generics`. -/
def BackendType.impl_generics (t : BackendType) (scalar : ScalarValueType) : Generics :=
  match t with
  | .Enum e => e.impl_generics scalar
  | .TraitObject o => o.impl_generics scalar

/-- Model of `Type::ty_tokens`. -/
def BackendType.ty_tokens : BackendType → String
  | .Enum e => e.ty_tokens
  | .TraitObject o => o.ty_tokens

/-- Model of `Type::concrete_type_name_method_tokens`. -/
def BackendType.concrete_type_name_method_tokens : BackendType → StructuralNameTok
  | .Enum e => e.concrete_type_name_method_tokens
  | .TraitObject o => o.concrete_type_name_method_tokens

/-- Model of `Type::resolve_into_type_method_tokens`. -/
def BackendType.resolve_into_type_method_tokens : BackendType → StructuralNarrowTok
  | .Enum e => e.resolve_into_type_method_tokens
  | .TraitObject o => o.resolve_into_type_method_tokens

/-- Model of `Type::to_resolve_into_type_async_method_tokens`. -/
def BackendType.to_resolve_into_type_async_method_tokens :
    BackendType → StructuralNarrowTok
  | .Enum e => e.to_resolve_into_type_async_method_tokens
  | .TraitObject o => o.to_resolve_into_type_async_method_tokens

/-- Model of `Definition`: the fully validated interface handed to the
code emitter. -/
structure Definition : Type where
  ty : BackendType
  trait_ident : Ident
  trait_generics : Generics
  name : String
  description : Option String
  context : Option Ty
  scalar : ScalarValueType
  fields : List InterfaceFieldDefinition
  implementers : List ImplementerDefinition
deriving DecidableEq, Repr

/-- Model of `Definition::no_field_panic_tokens`:
`panic!("Field `…` not found on type `…`", field, name(info))`. -/
def Definition.no_field_panic_tokens (_ : Definition) : SyncArmAction :=
  .doPanic no_field_panic_fmt [.fieldVar, .selfTypeName]

/-- The names of the async fields, in field order (the or-pattern of the
async-panic arm). -/
def Definition.async_field_names (d : Definition) : List String :=
  d.fields.filterMap fun f => if f.is_async then some f.name else none

/-- Model of the `async_fields_panic` arm of
`Definition::impl_graphql_value_tokens`: present only when some field is
async. -/
def Definition.async_fields_panic (d : Definition) : Option MatchArm :=
  let names := d.async_field_names
  if names.isEmpty then none
  else some { pats := names
              action := .doPanic async_field_panic_fmt [.fieldVar, .selfTypeName] }

/-- Character-list lexicographic comparison (the order `Ord::cmp` gives on
rendered token strings): compare heads, ties decided by the tails. -/
def chars_le : List Char → List Char → Bool
  | [], _ => true
  | _ :: _, [] => false
  | a :: as, b :: bs =>
    if a < b then true
    else if b < a then false
    else chars_le as bs

/-- Lexicographic comparison of two strings by their character lists. -/
def str_le (a b : String) : Bool := chars_le a.data b.data

/-- Model of the sorted implementer registration list inside
`Definition::impl_graphql_type_tokens`: `sort_unstable_by` over the
rendered token strings under lexicographic string comparison. -/
def Definition.sorted_impler_tys (d : Definition) : List Ty :=
  List.insertionSort (fun a b => str_le a b = true)
    (d.implementers.map fun impler => impler.ty)

/-- Model of one statement of the emitted `meta` body: an implementer
registration `let _ = registry.get_type::<ty>(info);` or the field-array
construction plus `registry.build_interface_type(..)`. -/
inductive MetaStmt : Type where
  | registerType (ty : Ty)
  | buildFields (fields : List FieldMetaTok)
deriving DecidableEq, Repr

/-- Whether a `meta`-body statement is an implementer registration. -/
def MetaStmt.is_register : MetaStmt → Bool
  | .registerType _ => true
  | .buildFields _ => false

/-- Whether a `meta`-body statement builds the field metadata. -/
def MetaStmt.is_build_fields : MetaStmt → Bool
  | .registerType _ => false
  | .buildFields _ => true

/-- Model of the `impl GraphQLType` emitted by
`Definition::impl_graphql_type_tokens`. -/
structure GraphqlTypeImpl : Type where
  impl_generics : Generics
  self_ty : String
  name_result : String
  description : Option String
  meta_body : List MetaStmt
deriving DecidableEq, Repr

/-- Model of `Definition::impl_graphql_type_tokens`: `name` returns the
exposed name; the `meta` body first registers every implementer type (in
sorted order) and then builds the field metadata in declared field
order. -/
def Definition.impl_graphql_type_tokens (d : Definition) : GraphqlTypeImpl :=
  { impl_generics := d.ty.impl_generics d.scalar
    self_ty := d.ty.ty_tokens
    name_result := d.name
    description := d.description
    meta_body := d.sorted_impler_tys.map MetaStmt.registerType ++
      [.buildFields (d.fields.map InterfaceFieldDefinition.meta_method_tokens)] }

/-- Model of the `impl GraphQLValue` emitted by
`Definition::impl_graphql_value_tokens` (the synchronous entry points). -/
structure GraphqlValueImpl : Type where
  where_preds : List Pred
  context_ty : Ty
  sync_arms : List MatchArm
  default_action : SyncArmAction
  custom_name_checks : List ConcreteNameCheck
  regular_name_check : StructuralNameTok
  custom_downcasts : List CustomDowncastCheck
  regular_downcast : StructuralNarrowTok
deriving DecidableEq, Repr

/-- Model of `Definition::impl_graphql_value_tokens`: the `resolve_field`
match lists the non-async field arms in field order, then the async-panic
arm (if any) — the wildcard default is the no-field panic; the two
narrowing bodies list the custom implementer checks (implementer order)
before the structural check. -/
def Definition.impl_graphql_value_tokens (d : Definition) : GraphqlValueImpl :=
  { where_preds := (d.ty.impl_generics d.scalar).where_preds
    context_ty := d.context.getD "()"
    sync_arms :=
      d.fields.filterMap InterfaceFieldDefinition.resolve_field_method_tokens ++
      d.async_fields_panic.toList
    default_action := d.no_field_panic_tokens
    custom_name_checks :=
      d.implementers.filterMap ImplementerDefinition.concrete_type_name_method_tokens
    regular_name_check := d.ty.concrete_type_name_method_tokens
    custom_downcasts :=
      d.implementers.filterMap ImplementerDefinition.resolve_into_type_method_tokens
    regular_downcast := d.ty.resolve_into_type_method_tokens }

/-- Model of the `impl GraphQLValue` (async part) emitted by
`Definition::impl_graphql_value_async_tokens`. -/
structure GraphqlValueAsyncImpl : Type where
  where_preds : List Pred
  async_arms : List AsyncMatchArm
  default_action : SyncArmAction
  custom_downcasts : List CustomDowncastCheck
  regular_downcast : StructuralNarrowTok
deriving DecidableEq, Repr

/-- Model of `Definition::impl_graphql_value_async_tokens`: the base
where-clause is extended with `Self: Sync`, and with
`#scalar_ty: Send + Sync` when the scalar is generic; every field gets an
async arm; the async narrowing body lists the custom checks before the
structural check. -/
def Definition.impl_graphql_value_async_tokens (d : Definition) : GraphqlValueAsyncImpl :=
  { where_preds := (d.ty.impl_generics d.scalar).where_preds ++ [.selfSync] ++
      (if d.scalar.is_generic then [.scalarSendSync] else [])
    async_arms :=
      d.fields.map InterfaceFieldDefinition.resolve_field_async_method_tokens
    default_action := d.no_field_panic_tokens
    custom_downcasts :=
      d.implementers.filterMap
        ImplementerDefinition.resolve_into_type_async_method_tokens
    regular_downcast := d.ty.to_resolve_into_type_async_method_tokens }

/-- Semantics of a Rust `match` over string-literal arms: the first arm
one of whose patterns equals the scrutinee fires; otherwise the wildcard
default. -/
def match_dispatch_sync (arms : List MatchArm) (dflt : SyncArmAction)
    (field : String) : SyncArmAction :=
  match arms with
  | [] => dflt
  | a :: rest =>
    if field ∈ a.pats then a.action else match_dispatch_sync rest dflt field

/-- Runtime outcome of the emitted synchronous `resolve_field`. -/
inductive SyncOutcome : Type where
  | resolved (res_ty : Ty) (call : MethodCallExpr)
  | panicked (fmt : String) (args : List String)
deriving DecidableEq, Repr

/-- Evaluation of a panic argument token: `field` is the scrutinized field
name; `<Self as GraphQLType<..>>::name(info).unwrap()` is the exposed type
name returned by the emitted `name` (see `impl_graphql_type_tokens`). -/
def PanicArgTok.eval (type_name field : String) : PanicArgTok → String
  | .fieldVar => field
  | .selfTypeName => type_name

/-- Runtime semantics of a sync arm action. -/
def SyncArmAction.run (type_name field : String) : SyncArmAction → SyncOutcome
  | .resolveCall ty call _ => .resolved ty call
  | .doPanic fmt args => .panicked fmt (args.map (PanicArgTok.eval type_name field))

/-- Runtime semantics of the emitted synchronous `resolve_field` for a
given field name: dispatch over the emitted arms, then run the selected
action, evaluating the exposed type name via the emitted `name`. -/
def Definition.run_resolve_field (d : Definition) (field : String) : SyncOutcome :=
  (match_dispatch_sync d.impl_graphql_value_tokens.sync_arms
      d.impl_graphql_value_tokens.default_action field).run
    d.impl_graphql_type_tokens.name_result field

/-- Semantics of an emitted `if cond { return … }` chain followed by the
structural fallback code: the first check whose guard holds fires. -/
def run_checks {χ ρ : Type} (guard : χ → Bool) (action : χ → ρ) (fallback : ρ) :
    List χ → ρ
  | [] => fallback
  | c :: rest =>
    if guard c then action c else run_checks guard action fallback rest

/-- Runtime outcome of the emitted `resolve_into_type` entry points. -/
inductive NarrowOutcome : Type where
  | narrowed (ty : Ty) (call : DowncastCall)
  | structural (tok : StructuralNarrowTok)
deriving DecidableEq, Repr

/-- Runtime semantics of the emitted synchronous `resolve_into_type`:
custom checks guard on `type_name == <ty as GraphQLType<..>>::name(..)`
(the external name resolution is a parameter `gql_name`). -/
def Definition.run_resolve_into_type (d : Definition) (gql_name : Ty → String)
    (type_name : String) : NarrowOutcome :=
  run_checks (fun c => gql_name c.ty == type_name)
    (fun c => .narrowed c.ty c.call)
    (.structural d.impl_graphql_value_tokens.regular_downcast)
    d.impl_graphql_value_tokens.custom_downcasts

/-- Runtime semantics of the emitted `resolve_into_type_async`. -/
def Definition.run_resolve_into_type_async (d : Definition)
    (gql_name : Ty → String) (type_name : String) : NarrowOutcome :=
  run_checks (fun c => gql_name c.ty == type_name)
    (fun c => .narrowed c.ty c.call)
    (.structural d.impl_graphql_value_async_tokens.regular_downcast)
    d.impl_graphql_value_async_tokens.custom_downcasts

/-- Evaluation of an emitted method-call expression under a semantic
assignment `call_sem` for the trait methods. -/
def MethodCallExpr.eval {V : Type}
    (call_sem : Ty → Ident → List ResolveArgTok → V) (c : MethodCallExpr) : V :=
  call_sem c.interface_ty c.method c.args

/-- Immediate polling of a future expression: a `future::ready(..)` wrap
is immediately ready with its wrapped value; a future returned by an async
method is not known to be. -/
def FutExpr.poll_now {V : Type}
    (call_sem : Ty → Ident → List ResolveArgTok → V) : FutExpr → Option V
  | .ready c => some (c.eval call_sem)
  | .futureOfCall _ => none

/-- The base (user-visible) where-clause the emitter starts from: empty
for the tagged-union backend, the trait's own where-clause for the
dynamic-dispatch backend. -/
def Definition.user_where_preds (d : Definition) : List Pred :=
  match d.ty with
  | .Enum _ => []
  | .TraitObject o => o.trait_generics.where_preds

/-- The merge-sensitive scalar options of `InterfaceMeta`. -/
inductive InterfaceOpt : Type where
  | name | description | context | scalar | asDyn | asEnum | asyncness
deriving DecidableEq, Repr

/-- Whether an `InterfaceMeta` annotation site sets the given option. -/
def InterfaceOpt.is_set : InterfaceOpt → InterfaceMeta → Bool
  | .name, m => m.name.isSome
  | .description, m => m.description.isSome
  | .context, m => m.context.isSome
  | .scalar, m => m.scalar.isSome
  | .asDyn, m => m.as_dyn.isSome
  | .asEnum, m => m.as_enum.isSome
  | .asyncness, m => m.asyncness.isSome

/-- An example trait declaration used by concrete witnesses. -/
def trEx : ItemTrait :=
  { ident := "Character"
    items := [.typeItem "Out" {}, .constItem "COUNT" "i32",
              .methodItem { ident := "id" }] }

/-- An example implementer (no custom downcast). -/
def imUser : ImplementerDefinition :=
  { ty := "User", downcast := none, context_ty := none
    scalar := .implicitGeneric, interface_ty := "Character" }

/-- An example implementer (external custom downcast). -/
def imPost : ImplementerDefinition :=
  { ty := "Post", downcast := some (.External "resolve_post")
    context_ty := none, scalar := .implicitGeneric
    interface_ty := "Character" }

/-- An example synchronous field. -/
def fieldIdSync : InterfaceFieldDefinition :=
  { name := "id", ty := "String", trait_ty := "Character"
    description := none, deprecated := none, method := "id"
    arguments := [], is_async := false }

/-- An example tagged union over the example trait and implementers. -/
def enumEx : EnumType := EnumType.new trEx {} [imUser, imPost]

/-- An example asynchronous field. -/
def fieldHomeAsync : InterfaceFieldDefinition :=
  { name := "homePlanet", ty := "String", trait_ty := "Character"
    description := none, deprecated := none, method := "home_planet"
    arguments := [], is_async := true }

/-- An example validated interface definition over the tagged-union
backend, with one sync and one async field. -/
def defEx : Definition :=
  { ty := .Enum enumEx
    trait_ident := "Character"
    trait_generics := {}
    name := "Character"
    description := none
    context := none
    scalar := .implicitGeneric
    fields := [fieldIdSync, fieldHomeAsync]
    implementers := [imUser, imPost] }

/-- A reordering of the example definition's implementers. -/
def defExSwapped : Definition := { defEx with implementers := [imPost, imUser] }

theorem exc_bind_error {ε α β : Type} (e : ε) (f : α → Except ε β) :
    (Except.error e >>= f) = Except.error e := rfl

theorem exc_bind_ok {ε α β : Type} (a : α) (f : α → Except ε β) :
    (Except.ok a >>= f : Except ε β) = f a := rfl

/-- Successful hash-set insertion implies the inserted elements were fresh
(none already in the accumulator) and mutually distinct. -/
theorem hashset_insert_all_ok {α : Type} [DecidableEq α] :
    ∀ (a acc r : List α), hashset_insert_all acc a = .ok r →
      (∀ t ∈ a, t ∉ acc) ∧ a.Nodup := by
  intro a
  induction a with
  | nil => intro acc r _; exact ⟨by simp, List.nodup_nil⟩
  | cons t ts ih =>
    intro acc r h
    unfold hashset_insert_all at h
    by_cases hmem : t ∈ acc
    · simp [hmem] at h
    · rw [if_neg hmem] at h
      obtain ⟨hfresh, hnodup⟩ := ih (acc ++ [t]) r h
      refine ⟨?_, ?_⟩
      · intro u hu
        rcases List.mem_cons.mp hu with rfl | hu2
        · exact hmem
        · intro hacc
          exact (hfresh u hu2) (by simp [hacc])
      · refine List.nodup_cons.mpr ⟨?_, hnodup⟩
        intro hts
        exact (hfresh t hts) (by simp)

/-- Successful hash-map insertion implies no inserted entry's key was
already present in the accumulator. -/
theorem hashmap_insert_all_ok {κ ν : Type} [DecidableEq κ] :
    ∀ (a acc r : List (κ × ν)), hashmap_insert_all acc a = .ok r →
      ∀ kv ∈ a, ∀ e ∈ acc, ¬(e.1 = kv.1) := by
  intro a
  induction a with
  | nil => intro acc r _ kv hkv; cases hkv
  | cons kv rest ih =>
    intro acc r h
    unfold hashmap_insert_all at h
    by_cases hany : acc.any (fun e => e.1 = kv.1)
    · rw [if_pos hany] at h
      cases h
    · rw [if_neg hany] at h
      intro kv' hkv' e he
      rcases List.mem_cons.mp hkv' with rfl | hkv2
      · intro hk
        exact hany (List.any_eq_true.mpr ⟨e, he, by simpa using hk⟩)
      · exact ih (acc ++ [kv]) r h kv' hkv2 e (by simp [he])

/-- A successful `InterfaceMeta::try_merge` implies that no merge-sensitive
option was set on both sides, the implementer sets were disjoint, and the
external-downcast maps shared no key. -/
theorem try_merge_ok_not_dup (m1 m2 m : InterfaceMeta)
    (h : m1.try_merge m2 = .ok m) :
    ¬(m1.name.isSome ∧ m2.name.isSome) ∧
    ¬(m1.description.isSome ∧ m2.description.isSome) ∧
    ¬(m1.context.isSome ∧ m2.context.isSome) ∧
    ¬(m1.scalar.isSome ∧ m2.scalar.isSome) ∧
    ¬(m1.as_dyn.isSome ∧ m2.as_dyn.isSome) ∧
    ¬(m1.as_enum.isSome ∧ m2.as_enum.isSome) ∧
    ¬(m1.asyncness.isSome ∧ m2.asyncness.isSome) ∧
    (∀ t, ¬(t ∈ m1.implementers ∧ t ∈ m2.implementers)) ∧
    (∀ k, ¬(k ∈ m1.external_downcasts.map Prod.fst ∧
            k ∈ m2.external_downcasts.map Prod.fst)) := by
  unfold InterfaceMeta.try_merge at h
  rcases h1 : try_merge_opt m1.name m2.name with e | v1
  · rw [h1] at h; simp [exc_bind_error] at h
  rw [h1] at h; simp only [exc_bind_ok] at h
  rcases h2 : try_merge_opt m1.description m2.description with e | v2
  · rw [h2] at h; simp [exc_bind_error] at h
  rw [h2] at h; simp only [exc_bind_ok] at h
  rcases h3 : try_merge_opt m1.context m2.context with e | v3
  · rw [h3] at h; simp [exc_bind_error] at h
  rw [h3] at h; simp only [exc_bind_ok] at h
  rcases h4 : try_merge_opt m1.scalar m2.scalar with e | v4
  · rw [h4] at h; simp [exc_bind_error] at h
  rw [h4] at h; simp only [exc_bind_ok] at h
  rcases h5 : try_merge_hashset m1.implementers m2.implementers with e | v5
  · rw [h5] at h; simp [exc_bind_error] at h
  rw [h5] at h; simp only [exc_bind_ok] at h
  rcases h6 : try_merge_opt m1.as_dyn m2.as_dyn with e | v6
  · rw [h6] at h; simp [exc_bind_error] at h
  rw [h6] at h; simp only [exc_bind_ok] at h
  rcases h7 : try_merge_opt m1.as_enum m2.as_enum with e | v7
  · rw [h7] at h; simp [exc_bind_error] at h
  rw [h7] at h; simp only [exc_bind_ok] at h
  rcases h8 : try_merge_opt m1.asyncness m2.asyncness with e | v8
  · rw [h8] at h; simp [exc_bind_error] at h
  rw [h8] at h; simp only [exc_bind_ok] at h
  rcases h9 : try_merge_hashmap m1.external_downcasts m2.external_downcasts
    with e | v9
  · rw [h9] at h; simp [exc_bind_error] at h
  have hset := hashset_insert_all_ok m2.implementers m1.implementers v5 h5
  have hmap := hashmap_insert_all_ok m2.external_downcasts
    m1.external_downcasts v9 h9
  refine ⟨?_, ?_, ?_, ?_, ?_, ?_, ?_, ?_, ?_⟩
  · rintro ⟨ha, hb⟩
    rcases Option.isSome_iff_exists.mp ha with ⟨x, hx⟩
    rcases Option.isSome_iff_exists.mp hb with ⟨y, hy⟩
    rw [hx, hy] at h1; simp [try_merge_opt] at h1
  · rintro ⟨ha, hb⟩
    rcases Option.isSome_iff_exists.mp ha with ⟨x, hx⟩
    rcases Option.isSome_iff_exists.mp hb with ⟨y, hy⟩
    rw [hx, hy] at h2; simp [try_merge_opt] at h2
  · rintro ⟨ha, hb⟩
    rcases Option.isSome_iff_exists.mp ha with ⟨x, hx⟩
    rcases Option.isSome_iff_exists.mp hb with ⟨y, hy⟩
    rw [hx, hy] at h3; simp [try_merge_opt] at h3
  · rintro ⟨ha, hb⟩
    rcases Option.isSome_iff_exists.mp ha with ⟨x, hx⟩
    rcases Option.isSome_iff_exists.mp hb with ⟨y, hy⟩
    rw [hx, hy] at h4; simp [try_merge_opt] at h4
  · rintro ⟨ha, hb⟩
    rcases Option.isSome_iff_exists.mp ha with ⟨x, hx⟩
    rcases Option.isSome_iff_exists.mp hb with ⟨y, hy⟩
    rw [hx, hy] at h6; simp [try_merge_opt] at h6
  · rintro ⟨ha, hb⟩
    rcases Option.isSome_iff_exists.mp ha with ⟨x, hx⟩
    rcases Option.isSome_iff_exists.mp hb with ⟨y, hy⟩
    rw [hx, hy] at h7; simp [try_merge_opt] at h7
  · rintro ⟨ha, hb⟩
    rcases Option.isSome_iff_exists.mp ha with ⟨x, hx⟩
    rcases Option.isSome_iff_exists.mp hb with ⟨y, hy⟩
    rw [hx, hy] at h8; simp [try_merge_opt] at h8
  · rintro t ⟨ht1, ht2⟩
    exact (hset.1 t ht2) ht1
  · rintro k ⟨hk1, hk2⟩
    obtain ⟨e1, he1, hke1⟩ := List.mem_map.mp hk1
    obtain ⟨e2, he2, hke2⟩ := List.mem_map.mp hk2
    exact hmap e2 he2 e1 he1 (hke1.trans hke2.symm)

/-- C6: for every pair of annotation sites that set the same
merge-sensitive option, merging their parsed records yields a
duplicate-option error regardless of the order in which the sites are
merged; in particular, listing the same implementer type twice, or
registering an external downcast for the same type twice — across sites,
or twice at one site (the parser's hash-set/hash-map insertions) — is a
duplicate error, never a silent deduplication. -/
theorem interface_meta_merge_duplicate_errors :
    (∀ (o : InterfaceOpt) (m1 m2 : InterfaceMeta),
        o.is_set m1 = true → o.is_set m2 = true →
        isErr (m1.try_merge m2) = true ∧ isErr (m2.try_merge m1) = true) ∧
    (∀ (m1 m2 : InterfaceMeta) (t : Ty),
        t ∈ m1.implementers → t ∈ m2.implementers →
        isErr (m1.try_merge m2) = true ∧ isErr (m2.try_merge m1) = true) ∧
    (∀ (m1 m2 : InterfaceMeta) (k : Ty),
        k ∈ m1.external_downcasts.map Prod.fst →
        k ∈ m2.external_downcasts.map Prod.fst →
        isErr (m1.try_merge m2) = true ∧ isErr (m2.try_merge m1) = true) ∧
    (∀ (out : InterfaceMeta) (parsed : List Ty) (t : Ty),
        2 ≤ parsed.count t →
        isErr (out.parse_implementers_arm parsed) = true) ∧
    (∀ (out out2 : InterfaceMeta) (ty : Ty) (p1 p2 : ExprPath),
        out.parse_on_arm ty p1 = .ok out2 →
        isErr (out2.parse_on_arm ty p2) = true) := by
  have herr : ∀ (m1 m2 : InterfaceMeta),
      (∀ m, m1.try_merge m2 ≠ .ok m) → isErr (m1.try_merge m2) = true := by
    intro m1 m2 hne
    rcases hx : m1.try_merge m2 with e | m
    · rfl
    · exact absurd hx (hne m)
  refine ⟨?_, ?_, ?_, ?_, ?_⟩
  · intro o m1 m2 h1 h2
    constructor
    · refine herr m1 m2 (fun m hm => ?_)
      have hc := try_merge_ok_not_dup m1 m2 m hm
      cases o with
      | name => exact hc.1 ⟨h1, h2⟩
      | description => exact hc.2.1 ⟨h1, h2⟩
      | context => exact hc.2.2.1 ⟨h1, h2⟩
      | scalar => exact hc.2.2.2.1 ⟨h1, h2⟩
      | asDyn => exact hc.2.2.2.2.1 ⟨h1, h2⟩
      | asEnum => exact hc.2.2.2.2.2.1 ⟨h1, h2⟩
      | asyncness => exact hc.2.2.2.2.2.2.1 ⟨h1, h2⟩
    · refine herr m2 m1 (fun m hm => ?_)
      have hc := try_merge_ok_not_dup m2 m1 m hm
      cases o with
      | name => exact hc.1 ⟨h2, h1⟩
      | description => exact hc.2.1 ⟨h2, h1⟩
      | context => exact hc.2.2.1 ⟨h2, h1⟩
      | scalar => exact hc.2.2.2.1 ⟨h2, h1⟩
      | asDyn => exact hc.2.2.2.2.1 ⟨h2, h1⟩
      | asEnum => exact hc.2.2.2.2.2.1 ⟨h2, h1⟩
      | asyncness => exact hc.2.2.2.2.2.2.1 ⟨h2, h1⟩
  · intro m1 m2 t ht1 ht2
    constructor
    · refine herr m1 m2 (fun m hm => ?_)
      exact (try_merge_ok_not_dup m1 m2 m hm).2.2.2.2.2.2.2.1 t ⟨ht1, ht2⟩
    · refine herr m2 m1 (fun m hm => ?_)
      exact (try_merge_ok_not_dup m2 m1 m hm).2.2.2.2.2.2.2.1 t ⟨ht2, ht1⟩
  · intro m1 m2 k hk1 hk2
    constructor
    · refine herr m1 m2 (fun m hm => ?_)
      exact (try_merge_ok_not_dup m1 m2 m hm).2.2.2.2.2.2.2.2 k ⟨hk1, hk2⟩
    · refine herr m2 m1 (fun m hm => ?_)
      exact (try_merge_ok_not_dup m2 m1 m hm).2.2.2.2.2.2.2.2 k ⟨hk2, hk1⟩
  · intro out parsed t hcount
    unfold InterfaceMeta.parse_implementers_arm
    rcases hx : hashset_insert_all out.implementers parsed with e | r
    · rfl
    · exfalso
      have hnodup := (hashset_insert_all_ok parsed out.implementers r hx).2
      have := List.nodup_iff_count_le_one.mp hnodup t
      omega
  · intro out out2 ty p1 p2 h
    unfold InterfaceMeta.parse_on_arm at h ⊢
    by_cases hany : out.external_downcasts.any (fun e => e.1 = ty)
    · rw [if_pos hany] at h
      cases h
    · rw [if_neg hany] at h
      rw [← Except.ok.inj h]
      rw [if_pos (by simp)]
      rfl

/-- Witness for C6 at concrete inputs: the `name` option set at both of
two sites errors in both merge orders; a shared implementer across two
sites errors; a shared external-downcast key across two sites errors in
both merge orders; an implementer listed twice at one site errors; the
same `on` key registered twice at one site errors. -/
theorem interface_meta_merge_duplicate_errors_witness :
    isErr (InterfaceMeta.try_merge { name := some "A" } { name := some "B" })
      = true ∧
    isErr (InterfaceMeta.try_merge { name := some "B" } { name := some "A" })
      = true ∧
    isErr (InterfaceMeta.try_merge { implementers := ["T"] }
      { implementers := ["U", "T"] }) = true ∧
    isErr (InterfaceMeta.try_merge
      { external_downcasts := [("T", "resolve_t")] }
      { external_downcasts := [("T", "other_t")] }) = true ∧
    isErr (InterfaceMeta.try_merge
      { external_downcasts := [("T", "other_t")] }
      { external_downcasts := [("T", "resolve_t")] }) = true ∧
    isErr (InterfaceMeta.parse_implementers_arm {} ["T", "T"]) = true ∧
    isErr (InterfaceMeta.parse_on_arm
      { external_downcasts := [("T", "resolve_t")] } "T" "other_t") = true :=
  ⟨(interface_meta_merge_duplicate_errors.1 .name
      { name := some "A" } { name := some "B" } (by decide) (by decide)).1,
   (interface_meta_merge_duplicate_errors.1 .name
      { name := some "B" } { name := some "A" } (by decide) (by decide)).1,
   (interface_meta_merge_duplicate_errors.2.1
      { implementers := ["T"] } { implementers := ["U", "T"] } "T"
      (by decide) (by decide)).1,
   (interface_meta_merge_duplicate_errors.2.2.1
      { external_downcasts := [("T", "resolve_t")] }
      { external_downcasts := [("T", "other_t")] } "T"
      (by decide) (by decide)).1,
   (interface_meta_merge_duplicate_errors.2.2.1
      { external_downcasts := [("T", "other_t")] }
      { external_downcasts := [("T", "resolve_t")] } "T"
      (by decide) (by decide)).1,
   interface_meta_merge_duplicate_errors.2.2.2.1 {} ["T", "T"] "T" (by decide),
   interface_meta_merge_duplicate_errors.2.2.2.2
      {} { external_downcasts := [("T", "resolve_t")] } "T" "resolve_t"
      "other_t" rfl⟩

/-- C5: if, after merging every annotation site, both the `dyn` alias and
the `enum` alias options are present, then `InterfaceMeta::from_attrs`
fails with the composability error and produces no metadata record. -/
theorem interface_meta_dyn_enum_exclusive (sites : List InterfaceMeta)
    (doc : Option String) (m : InterfaceMeta)
    (hm : InterfaceMeta.merge_all sites = .ok m)
    (hdyn : m.as_dyn.isSome = true) (henum : m.as_enum.isSome = true) :
    InterfaceMeta.from_attrs sites doc =
      .error (.errorMsg dyn_enum_not_composable_msg) := by
  unfold InterfaceMeta.from_attrs
  rw [hm]
  simp [hdyn, henum]

/-- Witness for C5: a `dyn` alias at one site and an `enum` alias at
another merge successfully, and then `from_attrs` rejects the combination
with the composability error. -/
theorem interface_meta_dyn_enum_exclusive_witness :
    InterfaceMeta.from_attrs
        [{ as_dyn := some "DynNode" }, { as_enum := some "NodeValue" }] none =
      .error (.errorMsg dyn_enum_not_composable_msg) :=
  interface_meta_dyn_enum_exclusive
    [{ as_dyn := some "DynNode" }, { as_enum := some "NodeValue" }] none
    { as_dyn := some "DynNode", as_enum := some "NodeValue" }
    rfl rfl rfl

/-- A one-site fold for `TraitMethodMeta` merges into the site itself. -/
theorem trait_method_merge_all_single (m : TraitMethodMeta) :
    TraitMethodMeta.merge_all [m] = .ok m := rfl

/-- A one-site fold for `ArgumentMeta` merges into the site itself. -/
theorem argument_merge_all_single (m : ArgumentMeta) :
    ArgumentMeta.merge_all [m] = .ok m := rfl

/-- C7: a method-level record combining `ignore` or `downcast` with any
naming, description, deprecation option or with the other of the two
flags, and an argument-level record combining `context` or `executor` with
any other argument option, both fail `from_attrs` with the corresponding
composability error instead of producing a metadata record. -/
theorem meta_flag_composability_errors
    (m : TraitMethodMeta) (am : ArgumentMeta)
    (doc : Option String) (depr : Option (Option String))
    (hm : (m.ignore.isSome ∧
            (m.name.isSome ∨ m.description.isSome ∨
             m.deprecated.isSome ∨ m.downcast.isSome)) ∨
          (m.downcast.isSome ∧
            (m.name.isSome ∨ m.description.isSome ∨
             m.deprecated.isSome ∨ m.ignore.isSome)))
    (ha : (am.context.isSome ∧
            (am.name.isSome ∨ am.description.isSome ∨
             am.default.isSome ∨ am.executor.isSome)) ∨
          (am.executor.isSome ∧
            (am.name.isSome ∨ am.description.isSome ∨
             am.default.isSome ∨ am.context.isSome))) :
    (TraitMethodMeta.from_attrs [m] doc depr =
        .error (.errorMsg ignore_not_composable_msg) ∨
     TraitMethodMeta.from_attrs [m] doc depr =
        .error (.errorMsg downcast_not_composable_msg)) ∧
    (ArgumentMeta.from_attrs [am] =
        .error (.errorMsg context_not_composable_msg) ∨
     ArgumentMeta.from_attrs [am] =
        .error (.errorMsg executor_not_composable_msg)) := by
  constructor
  · unfold TraitMethodMeta.from_attrs
    rw [trait_method_merge_all_single]
    dsimp only
    by_cases h1 : m.ignore.isSome ∧
        (m.name.isSome ∨ m.description.isSome ∨
         m.deprecated.isSome ∨ m.downcast.isSome)
    · rw [if_pos h1]; exact Or.inl rfl
    · rw [if_neg h1]
      have h2 : m.downcast.isSome ∧
          (m.name.isSome ∨ m.description.isSome ∨
           m.deprecated.isSome ∨ m.ignore.isSome) := by
        rcases hm with hml | hmr
        · exact absurd hml h1
        · exact hmr
      rw [if_pos h2]; exact Or.inr rfl
  · unfold ArgumentMeta.from_attrs
    rw [argument_merge_all_single]
    dsimp only
    by_cases h1 : am.context.isSome ∧
        (am.name.isSome ∨ am.description.isSome ∨
         am.default.isSome ∨ am.executor.isSome)
    · rw [if_pos h1]; exact Or.inl rfl
    · rw [if_neg h1]
      have h2 : am.executor.isSome ∧
          (am.name.isSome ∨ am.description.isSome ∨
           am.default.isSome ∨ am.context.isSome) := by
        rcases ha with hal | har
        · exact absurd hal h1
        · exact har
      rw [if_pos h2]; exact Or.inr rfl

/-- Witness for C7: `ignore` combined with a name, and `context` combined
with a default, are both rejected as composability errors. -/
theorem meta_flag_composability_errors_witness :
    (TraitMethodMeta.from_attrs [{ name := some "foo", ignore := some "ignore" }]
        none none =
        .error (.errorMsg ignore_not_composable_msg) ∨
     TraitMethodMeta.from_attrs [{ name := some "foo", ignore := some "ignore" }]
        none none =
        .error (.errorMsg downcast_not_composable_msg)) ∧
    (ArgumentMeta.from_attrs [{ default := some none, context := some "ctx" }] =
        .error (.errorMsg context_not_composable_msg) ∨
     ArgumentMeta.from_attrs [{ default := some none, context := some "ctx" }] =
        .error (.errorMsg executor_not_composable_msg)) :=
  meta_flag_composability_errors
    { name := some "foo", ignore := some "ignore" }
    { default := some none, context := some "ctx" }
    none none
    (Or.inl (by decide)) (Or.inl (by decide))

/-- Enumerating a mapped list enumerates the original and maps the
values. -/
theorem enumFrom_map_eq {α β : Type} (f : α → β) :
    ∀ (n : Nat) (l : List α),
      (l.map f).enumFrom n = (l.enumFrom n).map (fun p => (p.1, f p.2)) := by
  intro n l
  induction l generalizing n with
  | nil => rfl
  | cons x xs ih => simp [List.enumFrom, ih]

/-- `enum` version of `enumFrom_map_eq`. -/
theorem enum_map_eq {α β : Type} (f : α → β) (l : List α) :
    (l.map f).enum = l.enum.map (fun p => (p.1, f p.2)) :=
  enumFrom_map_eq f 0 l

/-- C1: for a tagged-union emission over a non-empty implementer list, the
emitted enum declaration has exactly one variant per implementer, the
`n`-th variant being `Impl{n}` holding the `n`-th implementer's type (so
variant order equals the implementer list's declaration order). -/
theorem enum_backend_variant_per_implementer
    (tr : ItemTrait) (meta : InterfaceMeta)
    (implers : List ImplementerDefinition) (hne : implers ≠ []) :
    (EnumType.new tr meta implers).variants.length = implers.length ∧
    (EnumType.new tr meta implers).type_definition_tokens.variants =
      implers.enum.map (fun p => (EnumType.variant_ident p.1, p.2.ty)) := by
  constructor
  · simp [EnumType.new]
  · show ((implers.map fun impler => impler.ty).enum.map
        fun p => (EnumType.variant_ident p.1, p.2)) = _
    rw [enum_map_eq]
    simp [List.map_map]

/-- Witness for C1: two implementers yield variants `Impl0(User)`,
`Impl1(Post)` in declaration order. -/
theorem enum_backend_variant_per_implementer_witness :
    (EnumType.new trEx {} [imUser, imPost]).variants.length = 2 ∧
    (EnumType.new trEx {} [imUser, imPost]).type_definition_tokens.variants =
      [("Impl0", "User"), ("Impl1", "Post")] := by
  have h := enum_backend_variant_per_implementer trEx {} [imUser, imPost]
    (by decide)
  refine ⟨h.1, ?_⟩
  rw [h.2]
  rfl

/-- C4: for a field whose method is synchronous, the emitted async arm
binds `fut` to `future::ready` of exactly the method-call expression the
synchronous arm computes, so polling it immediately yields the
synchronously computed value; and every emitted async arm (async or not)
feeds a future through the async resolving code. -/
theorem async_arm_wraps_sync_call
    (f : InterfaceFieldDefinition) (V : Type)
    (call_sem : Ty → Ident → List ResolveArgTok → V)
    (hsync : f.is_async = false) :
    (∃ sa, f.resolve_field_method_tokens = some sa ∧
       ∃ call, sa.action = .resolveCall f.ty call .syncCode ∧
         f.resolve_field_async_method_tokens.fut = .ready call ∧
         FutExpr.poll_now call_sem f.resolve_field_async_method_tokens.fut =
           some (call.eval call_sem)) ∧
    (∀ g : InterfaceFieldDefinition,
       g.resolve_field_async_method_tokens.resolving = .asyncCode (some g.ty)) := by
  constructor
  · have harm : f.resolve_field_method_tokens = some
        { pats := [f.name]
          action := .resolveCall f.ty
            ⟨f.trait_ty, f.method,
             f.arguments.map MethodArgument.resolve_field_method_tokens⟩
            .syncCode } := by
      unfold InterfaceFieldDefinition.resolve_field_method_tokens
      rw [if_neg (by simp [hsync])]
    refine ⟨_, harm, ⟨f.trait_ty, f.method,
        f.arguments.map MethodArgument.resolve_field_method_tokens⟩,
        rfl, ?_, ?_⟩
    · unfold InterfaceFieldDefinition.resolve_field_async_method_tokens
      simp [hsync]
    · unfold InterfaceFieldDefinition.resolve_field_async_method_tokens
      simp [hsync, FutExpr.poll_now]
  · intro g
    rfl

/-- Witness for C4 at the example synchronous field, with a concrete
method-call semantics. -/
theorem async_arm_wraps_sync_call_witness :
    (∃ sa, fieldIdSync.resolve_field_method_tokens = some sa ∧
       ∃ call, sa.action = .resolveCall fieldIdSync.ty call .syncCode ∧
         fieldIdSync.resolve_field_async_method_tokens.fut = .ready call ∧
         FutExpr.poll_now (fun _ _ _ => (7 : Nat))
             fieldIdSync.resolve_field_async_method_tokens.fut =
           some (call.eval (fun _ _ _ => (7 : Nat)))) ∧
    (∀ g : InterfaceFieldDefinition,
       g.resolve_field_async_method_tokens.resolving = .asyncCode (some g.ty)) :=
  async_arm_wraps_sync_call fieldIdSync Nat (fun _ _ _ => (7 : Nat)) rfl

/-- C8: for a tagged-union emission whose variant list has a first element
`v`, the `impl Trait` block forwards every associated type and every
associated constant of the trait from `v` and only from `v`. -/
theorem assoc_items_forwarded_from_first_variant
    (e : EnumType) (v : Ty) (hv : e.variants.head? = some v) :
    ∃ ti, e.impl_trait_tokens = some ti ∧
      ti.assoc_types = e.trait_types.map (fun p => ⟨p.1, p.2, v⟩) ∧
      ti.assoc_consts = e.trait_consts.map (fun p => ⟨p.1, p.2, v⟩) ∧
      (∀ t ∈ ti.assoc_types, t.from_ty = v) ∧
      (∀ c ∈ ti.assoc_consts, c.from_ty = v) ∧
      ti.assoc_types.length = e.trait_types.length ∧
      ti.assoc_consts.length = e.trait_consts.length := by
  have himpl : e.impl_trait_tokens = some
      { enum_ty := e.ident
        assoc_types := e.trait_types.map fun p => ⟨p.1, p.2, v⟩
        assoc_consts := e.trait_consts.map fun p => ⟨p.1, p.2, v⟩
        methods := e.trait_methods.map fun sig =>
          ⟨sig, e.variants.enum.map fun q =>
            ⟨EnumType.variant_ident q.1, q.2, sig.asyncness⟩⟩ } := by
    unfold EnumType.impl_trait_tokens
    rw [hv]
    rfl
  refine ⟨_, himpl, rfl, rfl, ?_, ?_, by simp, by simp⟩
  · intro t ht
    obtain ⟨p, _, hp⟩ := List.mem_map.mp ht
    rw [← hp]
  · intro c hc
    obtain ⟨p, _, hp⟩ := List.mem_map.mp hc
    rw [← hp]

/-- Witness for C8: the example tagged union forwards its associated type
and constant from the first variant `User`. -/
theorem assoc_items_forwarded_from_first_variant_witness :
    ∃ ti, enumEx.impl_trait_tokens = some ti ∧
      ti.assoc_types = enumEx.trait_types.map (fun p => ⟨p.1, p.2, "User"⟩) ∧
      ti.assoc_consts = enumEx.trait_consts.map (fun p => ⟨p.1, p.2, "User"⟩) ∧
      (∀ t ∈ ti.assoc_types, t.from_ty = "User") ∧
      (∀ c ∈ ti.assoc_consts, c.from_ty = "User") ∧
      ti.assoc_types.length = enumEx.trait_types.length ∧
      ti.assoc_consts.length = enumEx.trait_consts.length :=
  assoc_items_forwarded_from_first_variant enumEx "User" rfl

/-- A match whose arms none of which pattern-match the scrutinee falls
through to the wildcard default. -/
theorem match_dispatch_sync_skip_all (arms : List MatchArm)
    (dflt : SyncArmAction) (field : String)
    (h : ∀ a ∈ arms, field ∉ a.pats) :
    match_dispatch_sync arms dflt field = dflt := by
  induction arms with
  | nil => rfl
  | cons a rest ih =>
    unfold match_dispatch_sync
    rw [if_neg (h a (by simp))]
    exact ih (fun b hb => h b (by simp [hb]))

/-- Dispatch skips a leading block of arms none of which matches. -/
theorem match_dispatch_sync_append (l1 l2 : List MatchArm)
    (dflt : SyncArmAction) (field : String)
    (h : ∀ a ∈ l1, field ∉ a.pats) :
    match_dispatch_sync (l1 ++ l2) dflt field =
      match_dispatch_sync l2 dflt field := by
  induction l1 with
  | nil => rfl
  | cons a rest ih =>
    have hstep : match_dispatch_sync (a :: (rest ++ l2)) dflt field =
        match_dispatch_sync (rest ++ l2) dflt field := by
      show (if field ∈ a.pats then a.action
        else match_dispatch_sync (rest ++ l2) dflt field) = _
      rw [if_neg (h a (by simp))]
    rw [List.cons_append, hstep]
    exact ih (fun b hb => h b (by simp [hb]))

/-- The sync field arms of the emitted `resolve_field` come one per
non-async field, each matching exactly that field's name. -/
theorem sync_arm_pats (d : Definition) (a : MatchArm)
    (ha : a ∈ d.fields.filterMap
      InterfaceFieldDefinition.resolve_field_method_tokens) :
    ∃ f ∈ d.fields, f.is_async = false ∧ a.pats = [f.name] := by
  obtain ⟨f, hf, hfa⟩ := List.mem_filterMap.mp ha
  refine ⟨f, hf, ?_⟩
  unfold InterfaceFieldDefinition.resolve_field_method_tokens at hfa
  by_cases hb : f.is_async
  · rw [if_pos hb] at hfa
    cases hfa
  · rw [if_neg hb] at hfa
    cases hfa
    exact ⟨by simpa using hb, rfl⟩

/-- Membership in the async-panic arm's or-pattern names an async field. -/
theorem async_name_mem (d : Definition) (s : String)
    (hs : s ∈ d.async_field_names) :
    ∃ f ∈ d.fields, f.is_async = true ∧ f.name = s := by
  obtain ⟨f, hf, hfa⟩ := List.mem_filterMap.mp hs
  by_cases hb : f.is_async
  · rw [if_pos hb] at hfa
    exact ⟨f, hf, by simpa using hb, by simpa using hfa⟩
  · rw [if_neg hb] at hfa
    cases hfa

/-- C2: in the emitted synchronous `resolve_field`, a field name matching
no declared field panics with the no-field format naming the field and the
exposed type name (the value emitted by the `name` implementation); an
async field's name panics with the distinct async-field diagnostic, also
naming both — it is never resolved by the sync entry point. -/
theorem sync_resolution_unknown_and_async_panic
    (d : Definition) (fu : String)
    (hu : ∀ f ∈ d.fields, f.name ≠ fu)
    (fa : InterfaceFieldDefinition) (hmem : fa ∈ d.fields)
    (hasync : fa.is_async = true)
    (hdist : ∀ g ∈ d.fields, g.is_async = false → g.name ≠ fa.name) :
    d.run_resolve_field fu = .panicked no_field_panic_fmt [fu, d.name] ∧
    d.run_resolve_field fa.name =
      .panicked async_field_panic_fmt [fa.name, d.name] ∧
    no_field_panic_fmt ≠ async_field_panic_fmt := by
  refine ⟨?_, ?_, by decide⟩
  · have harms : ∀ a ∈ d.impl_graphql_value_tokens.sync_arms, fu ∉ a.pats := by
      intro a ha
      rcases List.mem_append.mp ha with hleft | hright
      · obtain ⟨f, hf, _, hp⟩ := sync_arm_pats d a hleft
        rw [hp]
        intro hfu
        exact hu f hf ((List.mem_singleton.mp hfu).symm)
      · unfold Definition.async_fields_panic at hright
        by_cases he : d.async_field_names.isEmpty
        · rw [if_pos he] at hright
          simp at hright
        · rw [if_neg he] at hright
          simp only [Option.toList_some, List.mem_singleton] at hright
          rw [hright]
          intro hfu
          obtain ⟨f, hf, _, hname⟩ := async_name_mem d fu hfu
          exact hu f hf hname
    unfold Definition.run_resolve_field
    rw [match_dispatch_sync_skip_all _ _ _ harms]
    rfl
  · have hskip : ∀ a ∈ d.fields.filterMap
        InterfaceFieldDefinition.resolve_field_method_tokens,
        fa.name ∉ a.pats := by
      intro a ha
      obtain ⟨f, hf, hfsync, hp⟩ := sync_arm_pats d a ha
      rw [hp]
      intro hx
      exact hdist f hf hfsync ((List.mem_singleton.mp hx).symm)
    have hmm : fa.name ∈ d.async_field_names :=
      List.mem_filterMap.mpr ⟨fa, hmem, by simp [hasync]⟩
    have hne : ¬d.async_field_names.isEmpty = true := by
      intro he
      rw [List.isEmpty_iff] at he
      rw [he] at hmm
      cases hmm
    have hpanic : d.async_fields_panic = some
        { pats := d.async_field_names
          action := .doPanic async_field_panic_fmt [.fieldVar, .selfTypeName] } := by
      unfold Definition.async_fields_panic
      rw [if_neg hne]
    unfold Definition.run_resolve_field
    show (match_dispatch_sync
      (d.fields.filterMap InterfaceFieldDefinition.resolve_field_method_tokens ++
        d.async_fields_panic.toList) _ _).run _ _ = _
    rw [match_dispatch_sync_append _ _ _ _ hskip, hpanic]
    have hone : ∀ (arm : MatchArm) (dflt : SyncArmAction) (s : String),
        s ∈ arm.pats →
        match_dispatch_sync (some arm).toList dflt s = arm.action := by
      intro arm dflt s hs
      show (if s ∈ arm.pats then arm.action else match_dispatch_sync [] dflt s) = _
      rw [if_pos hs]
    rw [hone _ _ _ (by simpa using hmm)]
    rfl

/-- Witness for C2: on the example definition, an unknown field name
panics with the no-field diagnostic and the async field's name panics with
the async diagnostic, both naming the field and the exposed type name. -/
theorem sync_resolution_unknown_and_async_panic_witness :
    defEx.run_resolve_field "friends" =
      .panicked no_field_panic_fmt ["friends", "Character"] ∧
    defEx.run_resolve_field "homePlanet" =
      .panicked async_field_panic_fmt ["homePlanet", "Character"] ∧
    no_field_panic_fmt ≠ async_field_panic_fmt :=
  sync_resolution_unknown_and_async_panic defEx "friends" (by decide)
    fieldHomeAsync (by decide) rfl (by decide)

/-- Facts about the sync custom-check emitter: no check without a downcast
strategy; an emitted check carries the implementer's type and its downcast
call. -/
theorem sync_check_facts (im : ImplementerDefinition) :
    (im.downcast = none → im.resolve_into_type_method_tokens = none) ∧
    (∀ c, im.resolve_into_type_method_tokens = some c → c.ty = im.ty) ∧
    (im.downcast.isSome = true →
      ∃ c, im.resolve_into_type_method_tokens = some c ∧ c.ty = im.ty ∧
        im.downcast_call_tokens = some c.call) := by
  obtain ⟨t, dc, cty, sc, ity⟩ := im
  rcases dc with _ | dcv
  · refine ⟨fun _ => rfl, fun c hc => ?_, fun hs => by simp at hs⟩
    simp [ImplementerDefinition.resolve_into_type_method_tokens] at hc
  · refine ⟨fun hn => Option.noConfusion hn, fun c hc => ?_, fun _ => ?_⟩
    · rw [← Option.some.inj hc]
    · cases dcv <;> exact ⟨_, rfl, rfl, rfl⟩

/-- Facts about the async custom-check emitter, mirroring
`sync_check_facts`. -/
theorem async_check_facts (im : ImplementerDefinition) :
    (im.downcast = none → im.resolve_into_type_async_method_tokens = none) ∧
    (∀ c, im.resolve_into_type_async_method_tokens = some c → c.ty = im.ty) ∧
    (im.downcast.isSome = true →
      ∃ c, im.resolve_into_type_async_method_tokens = some c ∧ c.ty = im.ty ∧
        im.downcast_call_tokens = some c.call) := by
  obtain ⟨t, dc, cty, sc, ity⟩ := im
  rcases dc with _ | dcv
  · refine ⟨fun _ => rfl, fun c hc => ?_, fun hs => by simp at hs⟩
    simp [ImplementerDefinition.resolve_into_type_async_method_tokens] at hc
  · refine ⟨fun hn => Option.noConfusion hn, fun c hc => ?_, fun _ => ?_⟩
    · rw [← Option.some.inj hc]
    · cases dcv <;> exact ⟨_, rfl, rfl, rfl⟩

/-- If no implementer both has a downcast strategy and matches the queried
type name, the emitted check chain falls through to the structural
fallback. -/
theorem run_checks_filterMap_fallback {ρ : Type}
    (F : ImplementerDefinition → Option CustomDowncastCheck)
    (hnone : ∀ im, im.downcast = none → F im = none)
    (hty : ∀ im c, F im = some c → c.ty = im.ty)
    (gq : Ty → String) (tn : String)
    (action : CustomDowncastCheck → ρ) (fb : ρ) :
    ∀ l : List ImplementerDefinition,
      (∀ im ∈ l, im.downcast = none ∨ gq im.ty ≠ tn) →
      run_checks (fun c => gq c.ty == tn) action fb (l.filterMap F) = fb := by
  intro l
  induction l with
  | nil => intro _; rfl
  | cons im rest ih =>
    intro h
    rcases hF : F im with _ | c
    · rw [List.filterMap_cons_none hF]
      exact ih (fun x hx => h x (by simp [hx]))
    · rw [List.filterMap_cons_some hF]
      show (if (gq c.ty == tn) = true then action c
        else run_checks (fun c => gq c.ty == tn) action fb (rest.filterMap F)) = fb
      have hne : gq im.ty ≠ tn := by
        rcases h im (by simp) with hn | hne
        · rw [hnone im hn] at hF
          cases hF
        · exact hne
      rw [if_neg (by rw [hty im c hF]; simpa using hne)]
      exact ih (fun x hx => h x (by simp [hx]))

/-- The first implementer (in list order) with a downcast strategy and a
matching type name wins: its emitted check fires and the chain returns its
action. -/
theorem run_checks_filterMap_first {ρ : Type}
    (F : ImplementerDefinition → Option CustomDowncastCheck)
    (hnone : ∀ im, im.downcast = none → F im = none)
    (hty : ∀ im c, F im = some c → c.ty = im.ty)
    (hsome : ∀ im, im.downcast.isSome = true →
      ∃ c, F im = some c ∧ c.ty = im.ty ∧
        im.downcast_call_tokens = some c.call)
    (gq : Ty → String) (tn : String)
    (action : CustomDowncastCheck → ρ) (fb : ρ)
    (pre : List ImplementerDefinition) (im : ImplementerDefinition)
    (post : List ImplementerDefinition)
    (hdc : im.downcast.isSome = true) (hhit : gq im.ty = tn)
    (hpre : ∀ j ∈ pre, j.downcast = none ∨ gq j.ty ≠ tn) :
    ∃ c, F im = some c ∧ c.ty = im.ty ∧
      im.downcast_call_tokens = some c.call ∧
      run_checks (fun c => gq c.ty == tn) action fb
        ((pre ++ im :: post).filterMap F) = action c := by
  induction pre with
  | nil =>
    obtain ⟨c, hc, hcty, hcall⟩ := hsome im hdc
    refine ⟨c, hc, hcty, hcall, ?_⟩
    rw [List.nil_append, List.filterMap_cons_some hc]
    show (if (gq c.ty == tn) = true then action c
      else run_checks (fun c => gq c.ty == tn) action fb (post.filterMap F)) =
      action c
    rw [if_pos (by rw [hcty, hhit]; simp)]
  | cons j pre' ih =>
    obtain ⟨c, hc, hcty, hcall, hrun⟩ := ih (fun x hx => hpre x (by simp [hx]))
    refine ⟨c, hc, hcty, hcall, ?_⟩
    rw [List.cons_append]
    rcases hFj : F j with _ | cj
    · rw [List.filterMap_cons_none hFj]
      exact hrun
    · rw [List.filterMap_cons_some hFj]
      show (if (gq cj.ty == tn) = true then action cj
        else run_checks (fun c => gq c.ty == tn) action fb
          ((pre' ++ im :: post).filterMap F)) = action c
      have hne : gq j.ty ≠ tn := by
        rcases hpre j (by simp) with hn | hne
        · rw [hnone j hn] at hFj
          cases hFj
        · exact hne
      rw [if_neg (by rw [hty j cj hFj]; simpa using hne), hrun]

/-- C3: in both emitted type-narrowing entry points
(`resolve_into_type` and `resolve_into_type_async`), the
implementer-specific custom checks are consulted before the backend's
structural check, in implementer-list order: if no implementer with a
downcast strategy matches the queried type name, the structural check
runs; otherwise the first matching implementer's downcast call wins and no
further check is consulted. -/
theorem narrowing_custom_checks_first
    (d : Definition) (gq : Ty → String) (tn : String) :
    ((∀ im ∈ d.implementers, im.downcast = none ∨ gq im.ty ≠ tn) →
       d.run_resolve_into_type gq tn =
         .structural d.ty.resolve_into_type_method_tokens ∧
       d.run_resolve_into_type_async gq tn =
         .structural d.ty.to_resolve_into_type_async_method_tokens) ∧
    (∀ pre im post, d.implementers = pre ++ im :: post →
       im.downcast.isSome = true → gq im.ty = tn →
       (∀ j ∈ pre, j.downcast = none ∨ gq j.ty ≠ tn) →
       ∃ call, im.downcast_call_tokens = some call ∧
         d.run_resolve_into_type gq tn = .narrowed im.ty call ∧
         d.run_resolve_into_type_async gq tn = .narrowed im.ty call) := by
  constructor
  · intro h
    constructor
    · exact run_checks_filterMap_fallback _
        (fun im => (sync_check_facts im).1)
        (fun im c => (sync_check_facts im).2.1 c) gq tn _ _ d.implementers h
    · exact run_checks_filterMap_fallback _
        (fun im => (async_check_facts im).1)
        (fun im c => (async_check_facts im).2.1 c) gq tn _ _ d.implementers h
  · intro pre im post hsplit hdc hhit hpre
    obtain ⟨c, _, hcty, hcall, hrun⟩ := run_checks_filterMap_first _
      (fun im => (sync_check_facts im).1)
      (fun im c => (sync_check_facts im).2.1 c)
      (fun im => (sync_check_facts im).2.2)
      gq tn (fun c => NarrowOutcome.narrowed c.ty c.call)
      (.structural d.impl_graphql_value_tokens.regular_downcast)
      pre im post hdc hhit hpre
    obtain ⟨c2, _, hcty2, hcall2, hrun2⟩ := run_checks_filterMap_first _
      (fun im => (async_check_facts im).1)
      (fun im c => (async_check_facts im).2.1 c)
      (fun im => (async_check_facts im).2.2)
      gq tn (fun c => NarrowOutcome.narrowed c.ty c.call)
      (.structural d.impl_graphql_value_async_tokens.regular_downcast)
      pre im post hdc hhit hpre
    refine ⟨c.call, hcall, ?_, ?_⟩
    · show run_checks _ _ _
        (d.implementers.filterMap
          ImplementerDefinition.resolve_into_type_method_tokens) = _
      rw [hsplit, hrun, hcty]
    · show run_checks _ _ _
        (d.implementers.filterMap
          ImplementerDefinition.resolve_into_type_async_method_tokens) = _
      have hceq : c2.call = c.call :=
        (Option.some.inj (hcall.symm.trans hcall2)).symm
      rw [hsplit, hrun2, hcty2, hceq]

/-- Witness for C3: on the example definition (implementers `User` without
and `Post` with a custom downcast), querying `Post` narrows through the
custom check of the second implementer, and querying an unknown name falls
through to the tagged union's structural match. -/
theorem narrowing_custom_checks_first_witness :
    (defEx.run_resolve_into_type (fun t => t) "Ewok" =
       .structural defEx.ty.resolve_into_type_method_tokens ∧
     defEx.run_resolve_into_type_async (fun t => t) "Ewok" =
       .structural defEx.ty.to_resolve_into_type_async_method_tokens) ∧
    (∃ call, imPost.downcast_call_tokens = some call ∧
       defEx.run_resolve_into_type (fun t => t) "Post" =
         .narrowed imPost.ty call ∧
       defEx.run_resolve_into_type_async (fun t => t) "Post" =
         .narrowed imPost.ty call) :=
  ⟨(narrowing_custom_checks_first defEx (fun t => t) "Ewok").1 (by decide),
   (narrowing_custom_checks_first defEx (fun t => t) "Post").2
     [imUser] imPost [] rfl rfl rfl (by decide)⟩

/-- The base where-clause of both emitted `GraphQLValue` impls: the
user-visible predicates plus, when the scalar is generic, its
`ScalarValue` bound. -/
theorem impl_generics_preds (d : Definition) :
    (d.ty.impl_generics d.scalar).where_preds =
      d.user_where_preds ++
        (if d.scalar.is_generic then
          [Pred.scalarValueBound d.scalar.ty_tokens_default] else []) := by
  obtain ⟨ty, ti, tg, nm, ds, cx, sc, fs, il⟩ := d
  cases ty with
  | Enum e =>
    cases hg : sc.is_generic <;>
      simp [BackendType.impl_generics, EnumType.impl_generics,
        Definition.user_where_preds, hg]
  | TraitObject o =>
    simp [BackendType.impl_generics, TraitObjectType.impl_generics,
      Definition.user_where_preds]

/-- C9: the emitted asynchronous `GraphQLValue` impl always carries
`Self: Sync` in its where-clause and carries `#scalar_ty: Send + Sync`
exactly when the scalar type is left generic; the synchronous impl
carries neither (under the side condition that the user's own trait
where-clause does not already contain those exact bounds). -/
theorem async_impl_thread_bounds (d : Definition)
    (h1 : Pred.selfSync ∉ d.user_where_preds)
    (h2 : Pred.scalarSendSync ∉ d.user_where_preds) :
    Pred.selfSync ∈ d.impl_graphql_value_async_tokens.where_preds ∧
    (Pred.scalarSendSync ∈ d.impl_graphql_value_async_tokens.where_preds ↔
      d.scalar.is_generic = true) ∧
    Pred.selfSync ∉ d.impl_graphql_value_tokens.where_preds ∧
    Pred.scalarSendSync ∉ d.impl_graphql_value_tokens.where_preds := by
  have hbase := impl_generics_preds d
  have hasync : d.impl_graphql_value_async_tokens.where_preds =
      (d.ty.impl_generics d.scalar).where_preds ++ [.selfSync] ++
        (if d.scalar.is_generic then [.scalarSendSync] else []) := rfl
  have hsync : d.impl_graphql_value_tokens.where_preds =
      (d.ty.impl_generics d.scalar).where_preds := rfl
  refine ⟨?_, ?_, ?_, ?_⟩
  · rw [hasync]
    simp
  · rw [hasync, hbase]
    cases hg : d.scalar.is_generic <;> simp [hg, h2]
  · rw [hsync, hbase]
    cases hg : d.scalar.is_generic <;> simp [hg, h1]
  · rw [hsync, hbase]
    cases hg : d.scalar.is_generic <;> simp [hg, h2]

/-- Witness for C9 on the example definition (generic scalar, tagged-union
backend). -/
theorem async_impl_thread_bounds_witness :
    Pred.selfSync ∈ defEx.impl_graphql_value_async_tokens.where_preds ∧
    (Pred.scalarSendSync ∈ defEx.impl_graphql_value_async_tokens.where_preds ↔
      defEx.scalar.is_generic = true) ∧
    Pred.selfSync ∉ defEx.impl_graphql_value_tokens.where_preds ∧
    Pred.scalarSendSync ∉ defEx.impl_graphql_value_tokens.where_preds :=
  async_impl_thread_bounds defEx (by decide) (by decide)

/-- Indexing the left part of an appended singleton. -/
theorem get_append_single_lt {α : Type} (l1 : List α) (x : α) (i : Nat)
    (hi : i < (l1 ++ [x]).length) (hlt : i < l1.length) :
    (l1 ++ [x]).get ⟨i, hi⟩ = l1.get ⟨i, hlt⟩ := by
  rw [List.get_eq_getElem, List.get_eq_getElem]
  exact List.getElem_append_left hlt

/-- Indexing the final element of an appended singleton. -/
theorem get_append_single_last {α : Type} (l1 : List α) (x : α)
    (hi : l1.length < (l1 ++ [x]).length) :
    (l1 ++ [x]).get ⟨l1.length, hi⟩ = x := by
  rw [List.get_eq_getElem]
  rw [List.getElem_append_right (Nat.le_refl _)]
  simp

/-- The lexicographic comparison is total. -/
theorem chars_le_total : ∀ as bs : List Char,
    chars_le as bs = true ∨ chars_le bs as = true := by
  intro as
  induction as with
  | nil => intro bs; exact Or.inl rfl
  | cons a as ih =>
    intro bs
    cases bs with
    | nil => exact Or.inr rfl
    | cons b bs =>
      rcases lt_trichotomy a b with hab | rfl | hba
      · exact Or.inl (by simp [chars_le, hab])
      · rcases ih bs with h | h
        · exact Or.inl (by simp [chars_le, h])
        · exact Or.inr (by simp [chars_le, h])
      · exact Or.inr (by simp [chars_le, hba])

/-- The lexicographic comparison is antisymmetric. -/
theorem chars_le_antisymm : ∀ as bs : List Char,
    chars_le as bs = true → chars_le bs as = true → as = bs := by
  intro as
  induction as with
  | nil =>
    intro bs h1 h2
    cases bs with
    | nil => rfl
    | cons b bs => simp [chars_le] at h2
  | cons a as ih =>
    intro bs h1 h2
    cases bs with
    | nil => simp [chars_le] at h1
    | cons b bs =>
      rcases lt_trichotomy a b with hab | rfl | hba
      · rw [show chars_le (b :: bs) (a :: as) = false by
          simp [chars_le, hab, asymm hab]] at h2
        cases h2
      · simp only [chars_le, lt_irrefl, if_false, if_neg] at h1 h2
        rw [ih bs h1 h2]
      · rw [show chars_le (a :: as) (b :: bs) = false by
          simp [chars_le, hba, asymm hba]] at h1
        cases h1

/-- The lexicographic comparison is transitive. -/
theorem chars_le_trans : ∀ as bs cs : List Char,
    chars_le as bs = true → chars_le bs cs = true → chars_le as cs = true := by
  intro as
  induction as with
  | nil => intro bs cs _ _; rfl
  | cons a as ih =>
    intro bs cs h1 h2
    cases bs with
    | nil => simp [chars_le] at h1
    | cons b bs =>
      cases cs with
      | nil => simp [chars_le] at h2
      | cons c cs =>
        rcases lt_trichotomy a b with hab | rfl | hba
        · rcases lt_trichotomy b c with hbc | rfl | hcb
          · exact (by simp [chars_le, lt_trans hab hbc])
          · exact (by simp [chars_le, hab])
          · rw [show chars_le (b :: bs) (c :: cs) = false by
              simp [chars_le, hcb, asymm hcb]] at h2
            cases h2
        · rcases lt_trichotomy a c with hac | rfl | hca
          · exact (by simp [chars_le, hac])
          · simp only [chars_le, lt_irrefl, if_false, if_neg] at h1 h2 ⊢
            exact ih bs cs h1 h2
          · rw [show chars_le (a :: bs) (c :: cs) = false by
              simp [chars_le, hca, asymm hca]] at h2
            cases h2
        · rw [show chars_le (a :: as) (b :: bs) = false by
            simp [chars_le, hba, asymm hba]] at h1
          cases h1

/-- `str_le` is total on strings. -/
theorem str_le_total (a b : String) :
    str_le a b = true ∨ str_le b a = true :=
  chars_le_total a.data b.data

/-- `str_le` is antisymmetric on strings. -/
theorem str_le_antisymm (a b : String)
    (h1 : str_le a b = true) (h2 : str_le b a = true) : a = b :=
  congrArg String.mk (chars_le_antisymm a.data b.data h1 h2)

/-- `str_le` is transitive on strings. -/
theorem str_le_trans (a b c : String)
    (h1 : str_le a b = true) (h2 : str_le b c = true) : str_le a c = true :=
  chars_le_trans a.data b.data c.data h1 h2

/-- C10: registration of implementer types in the emitted `meta` body is
in lexicographic order of the rendered type text, contains exactly the
implementer types, is invariant under any reordering of the implementer
list (hence independent of hash-iteration order), and every implementer
registration statement precedes the field-metadata construction. -/
theorem registrations_sorted_before_fields (d d2 : Definition)
    (hperm : List.Perm (d2.implementers.map ImplementerDefinition.ty)
             (d.implementers.map ImplementerDefinition.ty)) :
    List.Sorted (fun a b => str_le a b = true) d.sorted_impler_tys ∧
    List.Perm d.sorted_impler_tys (d.implementers.map ImplementerDefinition.ty) ∧
    d2.sorted_impler_tys = d.sorted_impler_tys ∧
    (∀ (i j : Nat) (hi : i < d.impl_graphql_type_tokens.meta_body.length)
        (hj : j < d.impl_graphql_type_tokens.meta_body.length),
        (d.impl_graphql_type_tokens.meta_body.get ⟨i, hi⟩).is_register = true →
        (d.impl_graphql_type_tokens.meta_body.get ⟨j, hj⟩).is_build_fields = true →
        i < j) := by
  haveI : IsAntisymm String (fun a b => str_le a b = true) :=
    ⟨fun a b hab hba => str_le_antisymm a b hab hba⟩
  haveI : IsTotal String (fun a b => str_le a b = true) :=
    ⟨fun a b => str_le_total a b⟩
  haveI : IsTrans String (fun a b => str_le a b = true) :=
    ⟨fun a b c hab hbc => str_le_trans a b c hab hbc⟩
  refine ⟨List.sorted_insertionSort _ _, List.perm_insertionSort _ _, ?_, ?_⟩
  · exact List.eq_of_perm_of_sorted
      ((List.perm_insertionSort _ _).trans
        (hperm.trans (List.perm_insertionSort _ _).symm))
      (List.sorted_insertionSort _ _) (List.sorted_insertionSort _ _)
  · intro i j hi hj hreg hbuild
    have hmb : d.impl_graphql_type_tokens.meta_body =
        d.sorted_impler_tys.map MetaStmt.registerType ++
        [.buildFields (d.fields.map InterfaceFieldDefinition.meta_method_tokens)] :=
      rfl
    have hlenr : (d.sorted_impler_tys.map MetaStmt.registerType).length =
        d.sorted_impler_tys.length := List.length_map _ _
    have hlen : d.impl_graphql_type_tokens.meta_body.length =
        d.sorted_impler_tys.length + 1 := by
      rw [hmb]
      simp
    have hjn : j = d.sorted_impler_tys.length := by
      by_cases hjl : j < d.sorted_impler_tys.length
      · exfalso
        have hjl2 : j < (d.sorted_impler_tys.map MetaStmt.registerType).length := by
          rw [hlenr]
          exact hjl
        have h3 := get_append_single_lt
          (d.sorted_impler_tys.map MetaStmt.registerType)
          (MetaStmt.buildFields
            (d.fields.map InterfaceFieldDefinition.meta_method_tokens))
          j hj hjl2
        have hb2 : (d.impl_graphql_type_tokens.meta_body.get ⟨j, hj⟩) =
            MetaStmt.registerType (d.sorted_impler_tys.get ⟨j, hjl⟩) := by
          refine h3.trans ?_
          rw [List.get_eq_getElem, List.get_eq_getElem, List.getElem_map]
        rw [hb2] at hbuild
        cases hbuild
      · have hj2 : j < d.sorted_impler_tys.length + 1 := hlen ▸ hj
        omega
    have hin : i < d.sorted_impler_tys.length := by
      by_cases hil : i < d.sorted_impler_tys.length
      · exact hil
      · exfalso
        have hi2 : i < d.sorted_impler_tys.length + 1 := hlen ▸ hi
        have hieq : i = d.sorted_impler_tys.length := by omega
        have hieq2 : i = (d.sorted_impler_tys.map MetaStmt.registerType).length := by
          rw [hlenr]
          exact hieq
        subst hieq2
        have hlast : d.impl_graphql_type_tokens.meta_body.get
            ⟨(d.sorted_impler_tys.map MetaStmt.registerType).length, hi⟩ =
            MetaStmt.buildFields
              (d.fields.map InterfaceFieldDefinition.meta_method_tokens) :=
          get_append_single_last _ _ hi
        rw [hlast] at hreg
        cases hreg
    rw [hjn]
    exact hin

/-- Witness for C10: on the example definition the registrations come out
sorted (`Post` before `User` lexicographically), are the same for the
swapped implementer order, and the register statement at index 0 precedes
the field build at index 2. -/
theorem registrations_sorted_before_fields_witness :
    List.Sorted (fun a b => str_le a b = true) defEx.sorted_impler_tys ∧
    defExSwapped.sorted_impler_tys = defEx.sorted_impler_tys ∧
    (0 : Nat) < 2 :=
  have h := registrations_sorted_before_fields defEx defExSwapped (by decide)
  ⟨h.1, h.2.2.1, h.2.2.2 0 2 (by decide) (by decide) (by decide) (by decide)⟩

end Juniper
